import Mathlib

/-!
# Selective Repeat sender and receiver (`sr.c`)

A shallow embedding of the sender entity A and the receiver entity B of `sr.c`.

Modelling conventions.

* C `int` values are mathematical integers; the C remainder operator `%` is
  `Int.tmod` (truncation towards zero), so a negative left operand gives a
  non-positive result exactly as in C.  The checksum accumulator is reduced to
  32-bit two's complement after every addition (`wrap32`).
* The statics `buffer` and `B_buffer` are arrays of `WINDOWSIZE` packets, typed
  `Fin 6 → pkt`.  An access with an index outside `0..5` has no defined
  behaviour in C; a handler that performs one returns `none`.
* The emulator calls `tolayer3`, `tolayer5`, `starttimer` and `stoptimer` are
  recorded, in call order, in the list of `Action`s every handler returns.
* `TRACE` printing has no effect on the state and is left out, as are the
  statics that are written but never read (`send_base`, `rcv_base`,
  `send_window`, `send_buffer`, `rcv_buffer`).
-/

namespace SR

/-! ## Constants and packets -/

/-- Maximum number of buffered unacked packets (`#define WINDOWSIZE 6`). -/
abbrev WINDOWSIZE : Int := 6

/-- Size of the sequence space (`#define SEQSPACE 12`). -/
abbrev SEQSPACE : Int := 12

/-- Filler for header fields that are not being used (`#define NOTINUSE (-1)`). -/
abbrev NOTINUSE : Int := -1

/-- Reduction of an integer to the 32-bit two's-complement range of a C `int`. -/
def wrap32 (x : Int) : Int := (x + 2147483648) % 4294967296 - 2147483648

/-- A block of 20 characters: `char data[20]` of `struct msg` and
`char payload[20]` of `struct pkt`.  Characters are kept as their integer
codes. -/
abbrev Block := { l : List Int // l.length = 20 }

/-- The application message, `struct msg`. -/
structure msg where
  data : Block
deriving DecidableEq

/-- The wire unit, `struct pkt`. -/
structure pkt where
  seqnum : Int
  acknum : Int
  checksum : Int
  payload : Block
deriving DecidableEq

/-- The two endpoints, `A` (sender) and `B` (receiver). -/
inductive Entity
  | A
  | B
deriving DecidableEq

/-- A call into the emulator made by a handler. -/
inductive Action
  | tolayer3 (AorB : Entity) (packet : pkt)
  | tolayer5 (AorB : Entity) (datasent : Block)
  | starttimer (AorB : Entity)
  | stoptimer (AorB : Entity)
deriving DecidableEq

/-- Checksum of a packet: `seqnum`, plus `acknum`, plus the 20 payload
characters, accumulated in a C `int`. -/
def ComputeChecksum (packet : pkt) : Int :=
  (List.range 20).foldl
    (fun checksum i => wrap32 (checksum + packet.payload.val.getD i 0))
    (wrap32 (packet.seqnum + packet.acknum))

/-- A packet is corrupted when its carried checksum differs from the
recomputed one. -/
def IsCorrupted (packet : pkt) : Bool :=
  if packet.checksum = ComputeChecksum packet then false else true

/-! ## Arrays of `WINDOWSIZE` packets -/

/-- Array read `a[i]`; `none` when `i` is outside `0..5`. -/
def rd (a : Fin 6 → pkt) (i : Int) : Option pkt :=
  if h : 0 ≤ i ∧ i < 6 then some (a ⟨i.toNat, by omega⟩) else none

/-- Array write `a[i] = p`; `none` when `i` is outside `0..5`. -/
def wr (a : Fin 6 → pkt) (i : Int) (p : pkt) : Option (Fin 6 → pkt) :=
  if 0 ≤ i ∧ i < 6 then some (fun j => if (j.val : Int) = i then p else a j) else none

/-- A zero-initialised packet, the content of every slot of a static array
before its first write. -/
def zeroPkt : pkt :=
  { seqnum := 0, acknum := 0, checksum := 0, payload := ⟨List.replicate 20 0, rfl⟩ }

/-! ## Sender (A) -/

/-- The statics of the sender together with the reporting counters of the
emulator that the sender increments. -/
structure Sender where
  buffer : Fin 6 → pkt
  windowfirst : Int
  windowlast : Int
  windowcount : Int
  A_nextseqnum : Int
  ackcount : Int
  window_full : Int
  total_ACKs_received : Int
  new_ACKs : Int
  packets_resent : Int

/-- The sender statics as the C runtime zero-initialises them. -/
def Sender.zero : Sender :=
  { buffer := fun _ => zeroPkt, windowfirst := 0, windowlast := 0, windowcount := 0,
    A_nextseqnum := 0, ackcount := 0, window_full := 0, total_ACKs_received := 0,
    new_ACKs := 0, packets_resent := 0 }

/-- Handler `A_output`: a message arrives from layer 5. -/
def A_output (s : Sender) (message : msg) : Option (Sender × List Action) :=
  if s.windowcount + s.ackcount < WINDOWSIZE then
    let sendpkt : pkt :=
      { seqnum := s.A_nextseqnum, acknum := NOTINUSE, checksum := 0, payload := message.data }
    let sendpkt : pkt := { sendpkt with checksum := ComputeChecksum sendpkt }
    let windowlast := (s.windowlast + 1).tmod WINDOWSIZE
    match wr s.buffer windowlast sendpkt with
    | none => none
    | some buffer =>
      let windowcount := s.windowcount + 1
      some ({ s with
                buffer := buffer
                windowlast := windowlast
                windowcount := windowcount
                A_nextseqnum := (s.A_nextseqnum + 1).tmod SEQSPACE },
            Action.tolayer3 Entity.A sendpkt ::
              (if windowcount = 1 then [Action.starttimer Entity.A] else []))
  else
    some ({ s with window_full := s.window_full + 1 }, [])

/-- The window test of `A_input` (and, with other bounds, of `B_input`):
`x` lies in the circular range from `first` to `last`. -/
def inRange (first last x : Int) : Bool :=
  (decide (first ≤ last) && (decide (x ≥ first) && decide (x ≤ last))) ||
  (decide (first > last) && (decide (x ≥ first) || decide (x ≤ last)))

/-- The window-slide loop of `A_input`: `n` iterations, each advancing
`windowfirst` and decrementing `ackcount` when the slot at `windowfirst` has
`acknum == 1`. -/
def A_slide : Nat → Sender → Option Sender
  | 0, s => some s
  | n + 1, s =>
    match rd s.buffer s.windowfirst with
    | none => none
    | some p =>
      if p.acknum = 1 then
        A_slide n { s with windowfirst := (s.windowfirst + 1).tmod WINDOWSIZE
                           ackcount := s.ackcount - 1 }
      else A_slide n s

/-- Handler `A_input`: a packet (an ACK) arrives from layer 3.  The C code
loads `seqfirst` and `seqlast` on entry and uses them only in the window test;
the model loads them where they are used. -/
def A_input (s : Sender) (packet : pkt) : Option (Sender × List Action) :=
  if IsCorrupted packet = false then
    let s : Sender := { s with total_ACKs_received := s.total_ACKs_received + 1 }
    if s.windowcount ≠ 0 then
      match rd s.buffer s.windowfirst, rd s.buffer s.windowlast with
      | some pfirst, some plast =>
        if inRange pfirst.seqnum plast.seqnum packet.acknum then
          let k := packet.acknum.tmod WINDOWSIZE
          match rd s.buffer k with
          | none => none
          | some slot =>
            match wr s.buffer k { slot with acknum := 1 } with
            | none => none
            | some buffer =>
              let s : Sender := { s with
                           buffer := buffer
                           ackcount := s.ackcount + 1
                           windowcount := s.windowcount - 1
                           new_ACKs := s.new_ACKs + 1 }
              match rd s.buffer s.windowfirst with
              | none => none
              | some front =>
                if front.seqnum = packet.acknum then
                  match A_slide 6 s with
                  | none => none
                  | some s =>
                    some (s, Action.stoptimer Entity.A ::
                              (if s.windowcount ≥ 1 then [Action.starttimer Entity.A] else []))
                else some (s, [])
        else some (s, [])
      | _, _ => none
    else some (s, [])
  else some (s, [])

/-- The retransmission scan of `A_timerinterrupt`, from loop index `i` with
`n` iterations left: the first slot `(i + windowfirst) % WINDOWSIZE` whose
`acknum` is not 1 is resent, the timer restarted, and the loop left. -/
def A_resend : Nat → Nat → Sender → Option (Sender × List Action)
  | 0, _, s => some (s, [])
  | n + 1, i, s =>
    match rd s.buffer (((i : Int) + s.windowfirst).tmod WINDOWSIZE) with
    | none => none
    | some p =>
      if p.acknum ≠ 1 then
        some ({ s with packets_resent := s.packets_resent + 1 },
              [Action.tolayer3 Entity.A p, Action.starttimer Entity.A])
      else A_resend n (i + 1) s

/-- Handler `A_timerinterrupt`: the timer of A goes off. -/
def A_timerinterrupt (s : Sender) : Option (Sender × List Action) :=
  if s.windowcount > 0 then A_resend 6 0 s else some (s, [])

/-- Handler `A_init`.  It assigns `A_nextseqnum`, `windowfirst`, `windowlast`
and `windowcount`; `ackcount` and `buffer` are not assigned. -/
def A_init (s : Sender) : Sender :=
  { s with A_nextseqnum := 0, windowfirst := 0, windowlast := -1, windowcount := 0 }

/-- The sender after program start: `A_init` on the zero-initialised statics. -/
def A_start : Sender := A_init Sender.zero

/-- One call into the sender. -/
inductive ACall
  | output (message : msg)
  | input (packet : pkt)
  | timerinterrupt

/-- Dispatch of one call into the sender. -/
def A_step (s : Sender) : ACall → Option (Sender × List Action)
  | ACall.output message => A_output s message
  | ACall.input packet => A_input s packet
  | ACall.timerinterrupt => A_timerinterrupt s

/-- A sequence of calls into the sender, run in order; the actions of all
calls are concatenated. -/
def A_exec : Sender → List ACall → Option (Sender × List Action)
  | s, [] => some (s, [])
  | s, c :: cs =>
    match A_step s c with
    | none => none
    | some (s1, acts1) =>
      match A_exec s1 cs with
      | none => none
      | some (s2, acts2) => some (s2, acts1 ++ acts2)

/-- Sender states reachable from `A_start` by calls of `A_output`, `A_input`
(with any packet) and `A_timerinterrupt`. -/
inductive A_reachable : Sender → Prop
  | start : A_reachable A_start
  | step (s : Sender) (c : ACall) (s1 : Sender) (acts : List Action) :
      A_reachable s → A_step s c = some (s1, acts) → A_reachable s1

/-- The message whose 20 characters all have code `c`. -/
def msgOf (c : Int) : msg := { data := ⟨List.replicate 20 c, by simp⟩ }

/-- An uncorrupted acknowledgment packet as `B_input` builds it: the given
`seqnum` and `acknum`, a payload of twenty characters `'0'` (code 48) and the
matching checksum. -/
def ackPkt (seqnum acknum : Int) : pkt :=
  let p : pkt := { seqnum := seqnum, acknum := acknum, checksum := 0,
                   payload := ⟨List.replicate 20 48, by simp⟩ }
  { p with checksum := ComputeChecksum p }

/-! ## Receiver (B) -/

/-- The statics of the receiver together with the reporting counter of the
emulator that the receiver increments. -/
structure Receiver where
  B_buffer : Fin 6 → pkt
  B_windowfirst : Int
  expectedseqnum : Int
  B_nextseqnum : Int
  packets_received : Int

/-- The receiver statics as the C runtime zero-initialises them. -/
def Receiver.zero : Receiver :=
  { B_buffer := fun _ => zeroPkt, B_windowfirst := 0, expectedseqnum := 0,
    B_nextseqnum := 0, packets_received := 0 }

/-- The delivery loop of `B_input`: `n` iterations, each handing the payload
of the slot at `B_windowfirst` to layer 5 and advancing `B_windowfirst` and
`expectedseqnum` when that slot carries `expectedseqnum`. -/
def B_deliver : Nat → Receiver → Option (Receiver × List Action)
  | 0, r => some (r, [])
  | n + 1, r =>
    match rd r.B_buffer r.B_windowfirst with
    | none => none
    | some p =>
      if p.seqnum = r.expectedseqnum then
        match B_deliver n { r with
                              B_windowfirst := (r.B_windowfirst + 1).tmod WINDOWSIZE
                              expectedseqnum := (r.expectedseqnum + 1).tmod SEQSPACE } with
        | none => none
        | some (r1, acts) => some (r1, Action.tolayer5 Entity.B p.payload :: acts)
      else B_deliver n r

/-- The acknowledgment `B_input` builds: `acknum` echoes the received
sequence number, `seqnum` is the receiver counter, the payload is twenty
characters `'0'` (code 48). -/
def B_ack (B_nextseqnum : Int) (packet : pkt) : pkt :=
  let sendpkt : pkt :=
    { seqnum := B_nextseqnum, acknum := packet.seqnum, checksum := 0,
      payload := ⟨List.replicate 20 48, by simp⟩ }
  { sendpkt with checksum := ComputeChecksum sendpkt }

/-- Handler `B_input`: a packet arrives from layer 3 at B. -/
def B_input (r : Receiver) (packet : pkt) : Option (Receiver × List Action) :=
  if IsCorrupted packet = false then
    let sendpkt := B_ack r.B_nextseqnum packet
    let r : Receiver := { r with
                            B_nextseqnum := (r.B_nextseqnum + 1).tmod SEQSPACE
                            packets_received := r.packets_received + 1 }
    let B_index := (r.expectedseqnum - 1 + WINDOWSIZE).tmod SEQSPACE
    if inRange r.expectedseqnum B_index packet.seqnum then
      match wr r.B_buffer (packet.seqnum.tmod WINDOWSIZE) packet with
      | none => none
      | some B_buffer =>
        let r : Receiver := { r with B_buffer := B_buffer }
        if packet.seqnum = r.expectedseqnum then
          match B_deliver 6 r with
          | none => none
          | some (r, acts) => some (r, Action.tolayer3 Entity.B sendpkt :: acts)
        else some (r, [Action.tolayer3 Entity.B sendpkt])
    else some (r, [Action.tolayer3 Entity.B sendpkt])
  else some (r, [])

/-- Handler `B_init`. -/
def B_init (r : Receiver) : Receiver :=
  { r with expectedseqnum := 0, B_nextseqnum := 1, B_windowfirst := 0 }

/-- The receiver after program start: `B_init` on the zero-initialised
statics. -/
def B_start : Receiver := B_init Receiver.zero

/-- The payloads handed to layer 5 by a list of actions, in call order. -/
def delivered : List Action → List Block
  | [] => []
  | Action.tolayer5 _ d :: acts => d :: delivered acts
  | _ :: acts => delivered acts

/-- A sequence of packets fed to `B_input` in order; the actions of all calls
are concatenated. -/
def B_exec : Receiver → List pkt → Option (Receiver × List Action)
  | r, [] => some (r, [])
  | r, p :: ps =>
    match B_input r p with
    | none => none
    | some (r1, acts1) =>
      match B_exec r1 ps with
      | none => none
      | some (r2, acts2) => some (r2, acts1 ++ acts2)

/-- Receiver states reachable from `B_start` by calls of `B_input` with any
packet. -/
inductive B_reachable : Receiver → Prop
  | start : B_reachable B_start
  | step (r : Receiver) (p : pkt) (r1 : Receiver) (acts : List Action) :
      B_reachable r → B_input r p = some (r1, acts) → B_reachable r1

/-- An uncorrupted data packet as `A_output` builds it. -/
def dataPkt (seqnum : Int) (message : msg) : pkt :=
  let p : pkt := { seqnum := seqnum, acknum := NOTINUSE, checksum := 0, payload := message.data }
  { p with checksum := ComputeChecksum p }

/-! ## The two entities joined by two channels and a timer -/

/-- Modelled from the spec: the emulator that joins the two entities is not
part of `sr.c`.  The channel in each direction is a queue that keeps the order
of the packets it carries; the timer is a flag; `accepted` lists the messages
`A_output` took into the window and `toLayer5` the payloads handed to the
application, both in time order. -/
structure Sys where
  sender : Sender
  receiver : Receiver
  toB : List pkt
  toA : List pkt
  timer : Bool
  accepted : List Block
  toLayer5 : List Block

/-- Modelled from the spec: the events of the emulator.  A packet at the head
of a channel arrives intact, is lost, or arrives as a packet `q` on which
`IsCorrupted` holds; a timeout fires only while the timer is armed. -/
inductive Event
  | submit (message : msg)
  | timeout
  | arriveB
  | loseB
  | garbleB (q : pkt)
  | arriveA
  | loseA
  | garbleA (q : pkt)

/-- Modelled from the spec: the effect of the emulator calls of one handler
run on the channels, the timer and the application. -/
def applyActions : Sys → List Action → Sys
  | σ, [] => σ
  | σ, Action.tolayer3 Entity.A p :: acts => applyActions { σ with toB := σ.toB ++ [p] } acts
  | σ, Action.tolayer3 Entity.B p :: acts => applyActions { σ with toA := σ.toA ++ [p] } acts
  | σ, Action.tolayer5 _ d :: acts => applyActions { σ with toLayer5 := σ.toLayer5 ++ [d] } acts
  | σ, Action.starttimer _ :: acts => applyActions { σ with timer := true } acts
  | σ, Action.stoptimer _ :: acts => applyActions { σ with timer := false } acts

/-- Whether a list of actions hands a packet to layer 3. -/
def sends : List Action → Bool
  | [] => false
  | Action.tolayer3 _ _ :: _ => true
  | _ :: acts => sends acts

/-- Modelled from the spec: one event of the emulator; `none` when the event
cannot occur in the state (empty channel, timer not armed, a garbled packet
that is not corrupted) or a handler leaves its arrays. -/
def sysStep (σ : Sys) : Event → Option Sys
  | Event.submit message =>
    match A_output σ.sender message with
    | none => none
    | some (s, acts) =>
      let σ1 : Sys := { σ with sender := s }
      let σ1 : Sys :=
        if sends acts then { σ1 with accepted := σ1.accepted ++ [message.data] } else σ1
      some (applyActions σ1 acts)
  | Event.timeout =>
    if σ.timer then
      match A_timerinterrupt σ.sender with
      | none => none
      | some (s, acts) => some (applyActions { σ with sender := s, timer := false } acts)
    else none
  | Event.arriveB =>
    match σ.toB with
    | [] => none
    | p :: rest =>
      match B_input σ.receiver p with
      | none => none
      | some (r, acts) => some (applyActions { σ with receiver := r, toB := rest } acts)
  | Event.loseB =>
    match σ.toB with
    | [] => none
    | _ :: rest => some { σ with toB := rest }
  | Event.garbleB q =>
    match σ.toB with
    | [] => none
    | _ :: rest =>
      if IsCorrupted q then
        match B_input σ.receiver q with
        | none => none
        | some (r, acts) => some (applyActions { σ with receiver := r, toB := rest } acts)
      else none
  | Event.arriveA =>
    match σ.toA with
    | [] => none
    | p :: rest =>
      match A_input σ.sender p with
      | none => none
      | some (s, acts) => some (applyActions { σ with sender := s, toA := rest } acts)
  | Event.loseA =>
    match σ.toA with
    | [] => none
    | _ :: rest => some { σ with toA := rest }
  | Event.garbleA q =>
    match σ.toA with
    | [] => none
    | _ :: rest =>
      if IsCorrupted q then
        match A_input σ.sender q with
        | none => none
        | some (s, acts) => some (applyActions { σ with sender := s, toA := rest } acts)
      else none

/-- Modelled from the spec: a finite sequence of emulator events, run in
order. -/
def sysRun : Sys → List Event → Option Sys
  | σ, [] => some σ
  | σ, e :: es =>
    match sysStep σ e with
    | none => none
    | some σ1 => sysRun σ1 es

/-- Modelled from the spec: the emulator after both `A_init` and `B_init`,
with empty channels and the timer stopped. -/
def Sys.start : Sys :=
  { sender := A_start, receiver := B_start, toB := [], toA := [], timer := false,
    accepted := [], toLayer5 := [] }

/-! ## Definitions used to state the properties -/

/-- The slot of a six-element array that an integer names modulo
`WINDOWSIZE`. -/
def ring (i : Int) : Fin 6 := ⟨(i % 6).toNat, by omega⟩

/-- The sequence numbers of the packets handed to layer 3 by a list of
actions, in call order. -/
def sentSeqnums : List Action → List Int
  | [] => []
  | Action.tolayer3 _ p :: acts => p.seqnum :: sentSeqnums acts
  | _ :: acts => sentSeqnums acts

/-- Submissions of the messages `msgOf c`, one per listed code. -/
def outputs (codes : List Int) : List ACall := codes.map (fun c => ACall.output (msgOf c))

/-- Arrivals of uncorrupted acknowledgments, one per listed `acknum`. -/
def acksFor (acknums : List Int) : List ACall := acknums.map (fun a => ACall.input (ackPkt 1 a))

/-- In the words of the timeout rule: the first loop index `i` in `0..5` whose
slot `(windowfirst + i) mod WINDOWSIZE` is not marked acknowledged, provided
`windowcount > 0`. -/
def firstUnacked (s : Sender) : Option Nat :=
  if s.windowcount > 0 then
    (List.range 6).find? (fun i => decide ((s.buffer (ring (s.windowfirst + i))).acknum ≠ 1))
  else none

/-- A sender state with the data packets 0 and 1 outstanding, as two
submissions from `A_start` leave it. -/
def twoSent : Sender :=
  { buffer := fun j =>
      if j.val = 0 then dataPkt 0 (msgOf 3) else if j.val = 1 then dataPkt 1 (msgOf 4) else zeroPkt
    windowfirst := 0, windowlast := 1, windowcount := 2, A_nextseqnum := 2, ackcount := 0,
    window_full := 0, total_ACKs_received := 0, new_ACKs := 0, packets_resent := 0 }

/-- Six submissions, their six acknowledgments in order, then seven more
submissions. -/
def overfillCalls : List ACall :=
  outputs [0, 1, 2, 3, 4, 5] ++ acksFor [0, 1, 2, 3, 4, 5] ++ outputs [6, 7, 8, 9, 10, 11, 12]

/-- Three submissions, then the acknowledgment of the second one. -/
def ackedMiddleCalls : List ACall := outputs [0, 1, 2] ++ acksFor [1]

/-- Six submissions, then the acknowledgments of the first five in order. -/
def lastOutstandingCalls : List ACall :=
  outputs [0, 1, 2, 3, 4, 5] ++ acksFor [0, 1, 2, 3, 4]

/-- Six submissions, their six acknowledgments in order, then six more
submissions, none of them acknowledged. -/
def secondRoundCalls : List ACall :=
  outputs [0, 1, 2, 3, 4, 5] ++ acksFor [0, 1, 2, 3, 4, 5] ++ outputs [6, 7, 8, 9, 10, 11]

/-- Submissions of the messages `msgOf c` as emulator events. -/
def submits (codes : List Int) : List Event := codes.map (fun c => Event.submit (msgOf c))

/-- An emulator run in which the packet of message 6 is lost and never
resent: messages 0..5 are sent, received and acknowledged in order; message 6
is sent and lost; messages 7..11 are sent, of which only the last reaches B
and is acknowledged; messages 12..17 are sent, the first of them reaches B and
is acknowledged; message 18 is sent, the packets of 13..17 are lost and the
packet of 18 reaches B. -/
def lossTrace : List Event :=
  submits [0, 1, 2, 3, 4, 5] ++ List.replicate 6 Event.arriveB ++
  List.replicate 6 Event.arriveA ++
  submits [6] ++ [Event.loseB] ++
  submits [7, 8, 9, 10, 11] ++ List.replicate 4 Event.loseB ++ [Event.arriveB, Event.arriveA] ++
  submits [12, 13, 14, 15, 16, 17] ++ [Event.arriveB, Event.arriveA] ++
  submits [18] ++ List.replicate 5 Event.loseB ++ [Event.arriveB]

/-- In the words of the delivery rule: the length of the longest run, at most
`n` long, of slots `(first + j) mod WINDOWSIZE`, `j = 0, 1, ...`, whose
sequence number is `(expected + j) mod SEQSPACE`. -/
def runLength (n : Nat) (buf : Fin 6 → pkt) (first expected : Int) : Nat :=
  ((List.range n).takeWhile
    (fun (j : Nat) => decide ((buf (ring (first + (j : Int)))).seqnum = (expected + (j : Int)) % 12))).length

/-- The receiver buffer after packet `p` has been stored at index
`p.seqnum mod WINDOWSIZE`. -/
def storeAt (buf : Fin 6 → pkt) (p : pkt) : Fin 6 → pkt :=
  fun j => if (j.val : Int) = p.seqnum % 6 then p else buf j

/-- In the words of the delivery rule: the number of payloads one call of
`B_input` with packet `p` hands to the application. -/
def burst (r : Receiver) (p : pkt) : Nat :=
  if p.seqnum = r.expectedseqnum then
    runLength 6 (storeAt r.B_buffer p) r.B_windowfirst r.expectedseqnum
  else 0

/-- Index invariant of the receiver: `expectedseqnum` is a sequence number
and `B_windowfirst` is its slot. -/
def B_aligned (r : Receiver) : Prop :=
  0 ≤ r.expectedseqnum ∧ r.expectedseqnum < 12 ∧ r.B_windowfirst = r.expectedseqnum % 6

/-- Invariant of the receiver after `n` payloads have been handed to the
application and the packets `arr` have been fed to `B_input`: the counters
follow `n`, and every slot holds either an uncorrupted packet that has
arrived or the zero-initialised packet, the latter only at an index that no
delivery has reached yet. -/
def B_inv (arr : List pkt) (n : Nat) (r : Receiver) : Prop :=
  r.expectedseqnum = (n : Int) % 12 ∧ r.B_windowfirst = (n : Int) % 6 ∧
  ∀ j : Fin 6, (r.B_buffer j ∈ arr ∧ IsCorrupted (r.B_buffer j) = false) ∨
    (r.B_buffer j = zeroPkt ∧ n ≤ j.val)

/-- Five data packets as `A_output` builds them, sequence numbers 0, 1, 2, 4
and 5 (packet 3 is missing). -/
def gapPackets : List pkt :=
  [dataPkt 0 (msgOf 0), dataPkt 1 (msgOf 1), dataPkt 2 (msgOf 2), dataPkt 4 (msgOf 4),
   dataPkt 5 (msgOf 5)]

/-- A packet on which `IsCorrupted` holds: the zero packet with checksum 1. -/
def garbled : pkt := { zeroPkt with checksum := 1 }

/-- Six submissions and their six acknowledgments in order. -/
def drainCalls : List ACall := outputs [0, 1, 2, 3, 4, 5] ++ acksFor [0, 1, 2, 3, 4, 5]

/-- Modelled from the spec: the timer of A as a flag.  The pair holds the
flag and whether the discipline has been broken so far; `starttimer` sets the
flag and breaks the discipline when the flag is already set, `stoptimer`
clears it and breaks the discipline when it is already clear. -/
def timerTrack : Bool × Bool → List Action → Bool × Bool
  | st, [] => st
  | (flag, broken), Action.starttimer _ :: acts => timerTrack (true, broken || flag) acts
  | (flag, broken), Action.stoptimer _ :: acts => timerTrack (false, broken || !flag) acts
  | st, _ :: acts => timerTrack st acts

/-- Modelled from the spec: a sequence of calls into the sender run together
with the timer flag.  A timeout can occur only while the flag is set and
clears it before `A_timerinterrupt` runs; `none` when a timeout is listed
while the flag is clear or a handler leaves its arrays. -/
def A_timed : Sender → Bool × Bool → List ACall → Option (Sender × (Bool × Bool))
  | s, st, [] => some (s, st)
  | s, (flag, broken), ACall.timerinterrupt :: cs =>
    if flag then
      match A_timerinterrupt s with
      | none => none
      | some (s1, acts) => A_timed s1 (timerTrack (false, broken) acts) cs
    else none
  | s, st, ACall.output message :: cs =>
    match A_output s message with
    | none => none
    | some (s1, acts) => A_timed s1 (timerTrack st acts) cs
  | s, st, ACall.input packet :: cs =>
    match A_input s packet with
    | none => none
    | some (s1, acts) => A_timed s1 (timerTrack st acts) cs

/-- Six submissions, their six acknowledgments in order, a seventh submission
and its acknowledgment. -/
def seventhAckedCalls : List ACall := drainCalls ++ outputs [6] ++ acksFor [6]

/-- The value range of a C `int` (32 bits, two's complement). -/
abbrev isInt (x : Int) : Prop := -2147483648 ≤ x ∧ x < 2147483648

/-- The sum that `ComputeChecksum` accumulates, before reduction to 32 bits:
`seqnum`, `acknum` and the 20 payload characters. -/
def fieldSum (p : pkt) : Int :=
  p.seqnum + p.acknum + ((List.range 20).map (fun i => p.payload.val.getD i 0)).sum

/-- Packets `p` and `q` differ in exactly one of `seqnum`, `acknum` and the
20 payload characters, and the two differing values are C `int`s. -/
def differInOne (p q : pkt) : Prop :=
  (p.seqnum ≠ q.seqnum ∧ isInt p.seqnum ∧ isInt q.seqnum ∧ p.acknum = q.acknum ∧
    p.payload = q.payload) ∨
  (p.seqnum = q.seqnum ∧ p.acknum ≠ q.acknum ∧ isInt p.acknum ∧ isInt q.acknum ∧
    p.payload = q.payload) ∨
  (p.seqnum = q.seqnum ∧ p.acknum = q.acknum ∧
    ∃ k : Nat, k < 20 ∧ p.payload.val.getD k 0 ≠ q.payload.val.getD k 0 ∧
      isInt (p.payload.val.getD k 0) ∧ isInt (q.payload.val.getD k 0) ∧
      ∀ i : Nat, i < 20 → i ≠ k → p.payload.val.getD i 0 = q.payload.val.getD i 0)

/-- The data packet of sequence number 0 whose payload starts with the
characters 1, 2. -/
def pktOneTwo : pkt :=
  dataPkt 0 { data := ⟨[1, 2, 0, 0, 0, 0, 0, 0, 0, 0, 0, 0, 0, 0, 0, 0, 0, 0, 0, 0], rfl⟩ }

/-- The packet `pktOneTwo` with its first two payload characters exchanged
and its checksum field kept. -/
def pktTwoOne : pkt :=
  { pktOneTwo with
      payload := ⟨[2, 1, 0, 0, 0, 0, 0, 0, 0, 0, 0, 0, 0, 0, 0, 0, 0, 0, 0, 0], rfl⟩ }

/-- Bookkeeping kept beside the sender to state properties of its history:
the number of messages `A_output` has taken into the window and the slots of
`buffer` that `A_output` has written. -/
structure History where
  accepted : Nat
  stored : Fin 6 → Bool

/-- The history before any call. -/
def History.empty : History := { accepted := 0, stored := fun _ => false }

/-- One call into the sender together with the bookkeeping: a call of
`A_output` that hands a packet to layer 3 counts as an accepted message and
marks the slot at the new `windowlast` as written. -/
def A_stepH (s : Sender) (h : History) (c : ACall) : Option (Sender × History) :=
  match A_step s c with
  | none => none
  | some (s1, acts) =>
    match c with
    | ACall.output _ =>
      if sends acts then
        some (s1, { accepted := h.accepted + 1
                    stored := fun j => if (j.val : Int) = s1.windowlast then true else h.stored j })
      else some (s1, h)
    | _ => some (s1, h)

/-- Sender states reachable from `A_start`, with their history. -/
inductive A_reachableH : Sender → History → Prop
  | start : A_reachableH A_start History.empty
  | step (s : Sender) (h : History) (c : ACall) (s1 : Sender) (h1 : History) :
      A_reachableH s h → A_stepH s h c = some (s1, h1) → A_reachableH s1 h1

/-- Invariant of the sender with its history: `A_nextseqnum` is a sequence
number; before the first accepted message `windowlast = -1`, `A_nextseqnum =
0` and no slot is written, afterwards `windowlast` is the slot of
`A_nextseqnum - 1`; every written slot holds a sequence number that names it
modulo `WINDOWSIZE`. -/
def A_inv (s : Sender) (h : History) : Prop :=
  (0 ≤ s.A_nextseqnum ∧ s.A_nextseqnum < 12) ∧
  ((h.accepted = 0 ∧ s.windowlast = -1 ∧ s.A_nextseqnum = 0 ∧ ∀ i : Fin 6, h.stored i = false) ∨
   (1 ≤ h.accepted ∧ 0 ≤ s.windowlast ∧ s.windowlast < 6 ∧
     s.windowlast = (s.A_nextseqnum - 1) % 6)) ∧
  ∀ i : Fin 6, h.stored i = true →
    0 ≤ (s.buffer i).seqnum ∧ (s.buffer i).seqnum < 12 ∧ (s.buffer i).seqnum % 6 = (i.val : Int)

/-- The sender and its history after the submission of message 0 from
`A_start`. -/
def oneSent : Sender × History :=
  match A_stepH A_start History.empty (ACall.output (msgOf 0)) with
  | some x => x
  | none => (A_start, History.empty)

/-! ## Basic facts about array accesses -/

theorem tmod_six (x : Int) (h : 0 ≤ x) : x.tmod 6 = x % 6 :=
  Int.tmod_eq_emod h (by decide)

theorem tmod_twelve (x : Int) (h : 0 ≤ x) : x.tmod 12 = x % 12 :=
  Int.tmod_eq_emod h (by decide)

theorem rd_of_bounds (a : Fin 6 → pkt) (i : Int) (h : 0 ≤ i ∧ i < 6) :
    rd a i = some (a (ring i)) := by
  unfold rd ring
  rw [dif_pos h]
  have : i % 6 = i := Int.emod_eq_of_lt h.1 h.2
  simp only [this]

theorem ring_val (i : Int) (h : 0 ≤ i ∧ i < 6) : ((ring i).val : Int) = i := by
  unfold ring
  simp only
  omega

theorem rd_tmod (a : Fin 6 → pkt) (x : Int) (h : 0 ≤ x) :
    rd a (x.tmod 6) = some (a (ring x)) := by
  rw [tmod_six x h, rd_of_bounds a (x % 6) ⟨Int.emod_nonneg x (by decide), Int.emod_lt_of_pos x (by decide)⟩]
  congr 2
  unfold ring
  simp

theorem wr_of_bounds (a : Fin 6 → pkt) (i : Int) (p : pkt) (h : 0 ≤ i ∧ i < 6) :
    wr a i p = some (fun j => if (j.val : Int) = i then p else a j) := by
  unfold wr
  rw [if_pos h]

theorem IsCorrupted_dataPkt (seqnum : Int) (message : msg) :
    IsCorrupted (dataPkt seqnum message) = false := by
  simp [IsCorrupted, dataPkt, ComputeChecksum]

theorem A_reachable_of_exec (cs : List ACall) (s s1 : Sender) (acts : List Action)
    (hs : A_reachable s) (h : A_exec s cs = some (s1, acts)) : A_reachable s1 := by
  induction cs generalizing s acts with
  | nil =>
    simp only [A_exec, Option.some.injEq, Prod.mk.injEq] at h
    obtain ⟨rfl, -⟩ := h
    exact hs
  | cons c cs ih =>
    simp only [A_exec] at h
    cases hc : A_step s c with
    | none => simp [hc] at h
    | some r =>
      obtain ⟨s2, acts2⟩ := r
      simp only [hc] at h
      cases hr : A_exec s2 cs with
      | none => simp [hr] at h
      | some r1 =>
        obtain ⟨s3, acts3⟩ := r1
        simp only [hr, Option.some.injEq, Prod.mk.injEq] at h
        obtain ⟨rfl, -⟩ := h
        exact ih s2 acts3 (A_reachable.step s c s2 acts2 hs hc) hr

/-! ## The admission test and the accepting branch of `A_output` -/

/-- C7: for a sender state whose `windowlast` is a valid last index (`-1`
after `A_init`, else `0..5`), `A_output` hands a packet carrying the message
to layer 3 iff `windowcount + ackcount < WINDOWSIZE`; when the test fails the
call returns the state with only `window_full` incremented by 1 and makes no
emulator call.  From `A_start`, six submissions are sent with sequence numbers
`0..5` and the seventh is rejected. -/
theorem A_output_admission (s : Sender) (message : msg)
    (hlast : -1 ≤ s.windowlast ∧ s.windowlast < 6) :
    ((∃ s1 p rest, A_output s message = some (s1, Action.tolayer3 Entity.A p :: rest) ∧
        p.payload = message.data) ↔ s.windowcount + s.ackcount < WINDOWSIZE) ∧
    (¬ (s.windowcount + s.ackcount < WINDOWSIZE) →
      A_output s message = some ({ s with window_full := s.window_full + 1 }, [])) ∧
    (A_exec A_start (outputs [0, 1, 2, 3, 4, 5])).map
        (fun r => (sentSeqnums r.2, r.1.window_full)) = some ([0, 1, 2, 3, 4, 5], 0) ∧
    (A_exec A_start (outputs [0, 1, 2, 3, 4, 5, 6])).map
        (fun r => (sentSeqnums r.2, r.1.window_full)) = some ([0, 1, 2, 3, 4, 5], 1) := by
  refine ⟨⟨?_, ?_⟩, ?_, by decide, by decide⟩
  · rintro ⟨s1, p, rest, h, -⟩
    by_contra hfull
    simp [A_output, hfull] at h
  · intro hroom
    have hidx : 0 ≤ (s.windowlast + 1).tmod 6 ∧ (s.windowlast + 1).tmod 6 < 6 := by
      rw [tmod_six _ (by omega)]
      omega
    simp only [A_output, if_pos hroom, wr_of_bounds _ _ _ hidx]
    exact ⟨_, _, _, rfl, rfl⟩
  · intro hfull
    simp [A_output, hfull]

/-- C7, at the start state and the message of code 0. -/
theorem A_output_admission_witness :
    (-1 ≤ A_start.windowlast ∧ A_start.windowlast < 6) ∧
    ((∃ s1 p rest, A_output A_start (msgOf 0) = some (s1, Action.tolayer3 Entity.A p :: rest) ∧
        p.payload = (msgOf 0).data) ↔ A_start.windowcount + A_start.ackcount < WINDOWSIZE) :=
  ⟨by decide, (A_output_admission A_start (msgOf 0) (by decide)).1⟩

/-- C8: for a sender state with `windowcount + ackcount < WINDOWSIZE`, a valid
last index `windowlast` and a non-negative `A_nextseqnum`, `A_output` hands
exactly one packet `p` to layer 3, with `seqnum = A_nextseqnum`,
`acknum = NOTINUSE`, the message as payload and a matching checksum; it stores
`p` at the new `windowlast = (windowlast + 1) mod WINDOWSIZE`, adds 1 to
`windowcount`, advances `A_nextseqnum` modulo `SEQSPACE`, leaves `windowfirst`,
`ackcount`, the counters and every other slot alone, and calls `starttimer`
iff the new `windowcount` is 1. -/
theorem A_output_accept (s : Sender) (message : msg)
    (hroom : s.windowcount + s.ackcount < WINDOWSIZE)
    (hlast : -1 ≤ s.windowlast ∧ s.windowlast < 6) (hseq : 0 ≤ s.A_nextseqnum) :
    ∃ s1 p, A_output s message =
        some (s1, Action.tolayer3 Entity.A p ::
                    (if s1.windowcount = 1 then [Action.starttimer Entity.A] else [])) ∧
      p.seqnum = s.A_nextseqnum ∧ p.acknum = NOTINUSE ∧ p.payload = message.data ∧
      IsCorrupted p = false ∧
      s1.windowlast = (s.windowlast + 1) % WINDOWSIZE ∧
      rd s1.buffer s1.windowlast = some p ∧
      (∀ j : Fin 6, (j.val : Int) ≠ s1.windowlast → s1.buffer j = s.buffer j) ∧
      s1.windowcount = s.windowcount + 1 ∧
      s1.A_nextseqnum = (s.A_nextseqnum + 1) % SEQSPACE ∧
      s1.windowfirst = s.windowfirst ∧ s1.ackcount = s.ackcount ∧
      s1.window_full = s.window_full ∧ s1.total_ACKs_received = s.total_ACKs_received ∧
      s1.new_ACKs = s.new_ACKs ∧ s1.packets_resent = s.packets_resent := by
  have hidx : 0 ≤ (s.windowlast + 1).tmod 6 ∧ (s.windowlast + 1).tmod 6 < 6 := by
    rw [tmod_six _ (by omega)]
    omega
  simp only [A_output, if_pos hroom, wr_of_bounds _ _ _ hidx]
  refine ⟨_, _, rfl, rfl, rfl, rfl, IsCorrupted_dataPkt s.A_nextseqnum message,
    tmod_six _ (by omega), ?_, ?_, rfl, tmod_twelve _ (by omega), rfl, rfl, rfl, rfl, rfl, rfl⟩
  · rw [rd_of_bounds _ _ hidx]
    simp only [ring_val _ hidx, if_true]
  · intro j hj
    simp only at hj ⊢
    rw [if_neg hj]

/-- C8, at the start state and the message of code 7. -/
theorem A_output_accept_witness :
    ∃ s1 p, A_output A_start (msgOf 7) =
        some (s1, Action.tolayer3 Entity.A p ::
                    (if s1.windowcount = 1 then [Action.starttimer Entity.A] else [])) ∧
      p.seqnum = 0 ∧ p.payload = (msgOf 7).data ∧ s1.windowlast = 0 ∧ s1.windowcount = 1 ∧
      s1.A_nextseqnum = 1 := by
  obtain ⟨s1, p, h, h1, -, h3, -, h5, -, -, h8, h9, -⟩ :=
    A_output_accept A_start (msgOf 7) (by decide) (by decide) (by decide)
  exact ⟨s1, p, h, h1, h3, h5, h8, h9⟩

/-! ## Retransmission on timeout -/

set_option maxRecDepth 100000

theorem A_resend_eq_find (s : Sender) (hfirst : 0 ≤ s.windowfirst) (n i : Nat) :
    A_resend n i s =
      match (List.range' i n).find?
          (fun (k : Nat) => decide ((s.buffer (ring (s.windowfirst + (k : Int)))).acknum ≠ 1)) with
      | some k =>
        some ({ s with packets_resent := s.packets_resent + 1 },
              [Action.tolayer3 Entity.A (s.buffer (ring (s.windowfirst + (k : Int)))),
               Action.starttimer Entity.A])
      | none => some (s, []) := by
  induction n generalizing i with
  | zero => simp [A_resend]
  | succ n ih =>
    have hrd : rd s.buffer (((i : Int) + s.windowfirst).tmod WINDOWSIZE) =
        some (s.buffer (ring (s.windowfirst + i))) := by
      rw [Int.add_comm]
      exact rd_tmod s.buffer _ (by omega)
    simp only [A_resend, hrd, List.range'_succ, List.find?_cons]
    by_cases hack : (s.buffer (ring (s.windowfirst + i))).acknum = 1
    · simp only [hack, ne_eq, not_true_eq_false, if_false, decide_False]
      exact ih (i + 1)
    · simp [hack]

theorem ring_cover (w : Int) (j : Fin 6) :
    ∃ i, i < 6 ∧ ring (w + (i : Nat)) = j := by
  refine ⟨(((j.val : Int) - w) % 6).toNat, by omega, ?_⟩
  apply Fin.ext
  unfold ring
  simp only
  have hj := j.isLt
  omega

/-- C9: for a sender state with `windowfirst ≥ 0`, `A_timerinterrupt` hands
to layer 3 exactly the packet of the first slot `(windowfirst + i) mod
WINDOWSIZE`, `i = 0..5`, that is not marked acknowledged, calls `starttimer`
once and adds 1 to `packets_resent`, when `windowcount > 0` and such a slot
exists; otherwise it makes no emulator call.  The rest of the state is
returned as it was. -/
theorem A_timerinterrupt_resends_first (s : Sender) (hfirst : 0 ≤ s.windowfirst) :
    (A_timerinterrupt s =
      match firstUnacked s with
      | some i =>
        some ({ s with packets_resent := s.packets_resent + 1 },
              [Action.tolayer3 Entity.A (s.buffer (ring (s.windowfirst + i))),
               Action.starttimer Entity.A])
      | none => some (s, [])) ∧
    (firstUnacked s = none ↔
      ¬ (s.windowcount > 0 ∧ ∃ j : Fin 6, (s.buffer j).acknum ≠ 1)) := by
  constructor
  · unfold A_timerinterrupt firstUnacked
    by_cases hcount : s.windowcount > 0
    · rw [if_pos hcount, if_pos hcount, A_resend_eq_find s hfirst 6 0, List.range_eq_range']
    · rw [if_neg hcount, if_neg hcount]
  · unfold firstUnacked
    by_cases hcount : s.windowcount > 0
    · rw [if_pos hcount, List.find?_eq_none]
      constructor
      · rintro h ⟨-, j, hj⟩
        obtain ⟨i, hi, hij⟩ := ring_cover s.windowfirst j
        have hi1 := h i (List.mem_range.mpr hi)
        rw [hij] at hi1
        simp only [decide_eq_true_eq, not_not] at hi1
        exact hj hi1
      · intro h i _
        simp only [decide_eq_true_eq, not_not]
        by_contra hne
        exact h ⟨hcount, _, hne⟩
    · rw [if_neg hcount]
      simp [hcount]

/-- C9, at the state with packets 0 and 1 outstanding: the packet of
sequence number 0 is resent. -/
theorem A_timerinterrupt_resends_first_witness :
    0 ≤ twoSent.windowfirst ∧ firstUnacked twoSent = some 0 ∧
    (A_timerinterrupt twoSent =
      match firstUnacked twoSent with
      | some i =>
        some ({ twoSent with packets_resent := twoSent.packets_resent + 1 },
              [Action.tolayer3 Entity.A (twoSent.buffer (ring (twoSent.windowfirst + i))),
               Action.starttimer Entity.A])
      | none => some (twoSent, [])) :=
  ⟨by decide, by decide, (A_timerinterrupt_resends_first twoSent (by decide)).1⟩

/-! ## Runs on which the sender leaves its window discipline -/

/-- C2: after six submissions, their six acknowledgments in order and seven
more submissions, `windowcount` is 7, above `WINDOWSIZE`: the last
acknowledgment slid `windowfirst` over all six slots and left `ackcount = -5`,
so the admission test no longer bounds `windowcount`. -/
theorem windowcount_exceeds_WINDOWSIZE :
    (A_exec A_start (outputs [0, 1, 2, 3, 4, 5] ++ acksFor [0, 1, 2, 3, 4, 5])).map
        (fun r => (r.1.windowfirst, r.1.windowlast, r.1.windowcount, r.1.ackcount))
      = some (5, 5, 0, -5) ∧
    (A_exec A_start overfillCalls).map
        (fun r => (r.1.windowcount, r.1.ackcount, r.1.window_full, sentSeqnums r.2))
      = some (7, -5, 0, [0, 1, 2, 3, 4, 5, 6, 7, 8, 9, 10, 11, 0]) ∧
    ∃ s, A_reachable s ∧ ¬ s.windowcount ≤ WINDOWSIZE := by
  have h2 : (A_exec A_start overfillCalls).map
        (fun r => (r.1.windowcount, r.1.ackcount, r.1.window_full, sentSeqnums r.2))
      = some (7, -5, 0, [0, 1, 2, 3, 4, 5, 6, 7, 8, 9, 10, 11, 0]) := by decide
  refine ⟨by decide, h2, ?_⟩
  cases hrun : A_exec A_start overfillCalls with
  | none => simp [hrun] at h2
  | some r =>
    obtain ⟨s, acts⟩ := r
    simp only [hrun, Option.map_some', Option.some.injEq, Prod.mk.injEq] at h2
    refine ⟨s, A_reachable_of_exec _ _ _ _ A_reachable.start hrun, ?_⟩
    rw [h2.1]
    decide

/-- C5: in the state after three submissions and the acknowledgment of the
second, slot 1 is marked acknowledged; a second uncorrupted acknowledgment
with `acknum = 1` is counted again: `windowcount` drops from 2 to 1, `ackcount`
rises from 1 to 2 and `new_ACKs` from 1 to 2. -/
theorem A_input_counts_duplicate :
    IsCorrupted (ackPkt 1 1) = false ∧
    (A_exec A_start ackedMiddleCalls).map
        (fun r => ((r.1.buffer 1).seqnum, (r.1.buffer 1).acknum, r.1.windowfirst,
                   r.1.windowcount, r.1.ackcount, r.1.new_ACKs))
      = some (1, 1, 0, 2, 1, 1) ∧
    ((A_exec A_start ackedMiddleCalls).bind (fun r => A_input r.1 (ackPkt 1 1))).map
        (fun r => ((r.1.buffer 1).seqnum, (r.1.buffer 1).acknum, r.1.windowfirst,
                   r.1.windowcount, r.1.ackcount, r.1.new_ACKs))
      = some (1, 1, 0, 1, 2, 2) := by
  refine ⟨by decide, by decide, by decide⟩

/-- C6: in the state after six submissions and the acknowledgments of the
first five, packet 5 is the only one in the window (`windowfirst = windowlast
= 5`); its acknowledgment leaves `windowfirst` at 5 instead of
`(windowlast + 1) mod WINDOWSIZE = 0` and takes `ackcount` from 0 to -5: the
slide loop ran over all six slots. -/
theorem A_input_slides_past_window :
    IsCorrupted (ackPkt 1 5) = false ∧
    (A_exec A_start lastOutstandingCalls).map
        (fun r => ((r.1.buffer 5).seqnum, r.1.windowfirst, r.1.windowlast,
                   r.1.windowcount, r.1.ackcount))
      = some (5, 5, 5, 1, 0) ∧
    ((A_exec A_start lastOutstandingCalls).bind (fun r => A_input r.1 (ackPkt 1 5))).map
        (fun r => (r.1.windowfirst, r.1.windowlast, r.1.windowcount, r.1.ackcount, r.2))
      = some (5, 5, 0, -5, [Action.stoptimer Entity.A]) := by
  refine ⟨by decide, by decide, by decide⟩

/-- C10: after six submissions, their six acknowledgments in order and six
more submissions (sequence numbers 6..11, none acknowledged),
`A_timerinterrupt` resends the packet of message 11, not the packet of
message 6, the earliest submitted one that is still unacknowledged. -/
theorem A_timerinterrupt_resends_newest :
    (A_exec A_start secondRoundCalls).map
        (fun r => (r.1.windowfirst, r.1.windowlast, r.1.windowcount, sentSeqnums r.2))
      = some (5, 5, 6, [0, 1, 2, 3, 4, 5, 6, 7, 8, 9, 10, 11]) ∧
    ((A_exec A_start secondRoundCalls).bind (fun r => A_timerinterrupt r.1)).map (fun r => r.2)
      = some [Action.tolayer3 Entity.A (dataPkt 11 (msgOf 11)), Action.starttimer Entity.A] := by
  refine ⟨by decide, by decide⟩

/-! ## End-to-end delivery -/

/-- C1: on `lossTrace` the emulator accepts messages 0..18 in order and hands
to the application the payloads of messages 0, 1, 2, 3, 4, 5 and then 18: the
delivered list is not a beginning of the accepted list (message 6 is skipped,
message 18 is delivered in its place). -/
theorem delivery_skips_message :
    (sysRun Sys.start lossTrace).map (fun σ => (σ.accepted, σ.toLayer5))
      = some ((List.range 19).map (fun c => (msgOf c).data),
              [0, 1, 2, 3, 4, 5, 18].map (fun c => (msgOf c).data)) ∧
    ∃ σ, sysRun Sys.start lossTrace = some σ ∧ ¬ (σ.toLayer5 <+: σ.accepted) := by
  have h : (sysRun Sys.start lossTrace).map (fun σ => (σ.accepted, σ.toLayer5))
      = some ((List.range 19).map (fun c => (msgOf c).data),
              [0, 1, 2, 3, 4, 5, 18].map (fun c => (msgOf c).data)) := by decide
  refine ⟨h, ?_⟩
  cases hrun : sysRun Sys.start lossTrace with
  | none => simp [hrun] at h
  | some σ =>
    simp only [hrun, Option.map_some', Option.some.injEq, Prod.mk.injEq] at h
    refine ⟨σ, rfl, ?_⟩
    rw [h.1, h.2]
    decide

/-! ## The delivery loop of the receiver -/

theorem runLength_congr (n : Nat) (buf : Fin 6 → pkt) (w w1 e e1 : Int)
    (hw : w % 6 = w1 % 6) (he : e % 12 = e1 % 12) :
    runLength n buf w e = runLength n buf w1 e1 := by
  unfold runLength
  congr 2
  funext j
  have h1 : ring (w + (j : Int)) = ring (w1 + (j : Int)) := by
    apply Fin.ext
    unfold ring
    simp only
    omega
  have h2 : (e + (j : Int)) % 12 = (e1 + (j : Int)) % 12 := by omega
  rw [h1, h2]

theorem runLength_succ (n : Nat) (buf : Fin 6 → pkt) (w e : Int) :
    runLength (n + 1) buf w e =
      if (buf (ring w)).seqnum = e % 12 then 1 + runLength n buf (w + 1) (e + 1) else 0 := by
  unfold runLength
  rw [List.range_succ_eq_map, List.takeWhile_cons]
  simp only [Nat.cast_zero, add_zero]
  by_cases h : (buf (ring w)).seqnum = e % 12
  · simp only [h, decide_True, if_true, List.length_cons, List.takeWhile_map, List.length_map]
    rw [Nat.add_comm]
    congr 3
    funext j
    simp only [Function.comp, Nat.succ_eq_add_one, Nat.cast_add, Nat.cast_one]
    have h1 : w + ((j : Int) + 1) = w + 1 + (j : Int) := by omega
    have h2 : e + ((j : Int) + 1) = e + 1 + (j : Int) := by omega
    rw [h1, h2]
  · simp [h]

theorem runLength_le (n : Nat) (buf : Fin 6 → pkt) (w e : Int) : runLength n buf w e ≤ n := by
  induction n generalizing w e with
  | zero => simp [runLength]
  | succ n ih =>
    rw [runLength_succ]
    split
    · have := ih (w + 1) (e + 1)
      omega
    · omega

theorem runLength_spec (n : Nat) (buf : Fin 6 → pkt) (w e : Int) (i : Nat)
    (hi : i < runLength n buf w e) :
    (buf (ring (w + (i : Int)))).seqnum = (e + (i : Int)) % 12 := by
  induction n generalizing w e i with
  | zero => simp [runLength] at hi
  | succ n ih =>
    rw [runLength_succ] at hi
    by_cases h : (buf (ring w)).seqnum = e % 12
    · rw [if_pos h] at hi
      cases i with
      | zero => simpa using h
      | succ i =>
        have := ih (w + 1) (e + 1) i (by omega)
        have h1 : w + ((i + 1 : Nat) : Int) = w + 1 + (i : Int) := by push_cast; omega
        have h2 : e + ((i + 1 : Nat) : Int) = e + 1 + (i : Int) := by push_cast; omega
        rw [h1, h2]
        exact this
    · rw [if_neg h] at hi
      omega

theorem runLength_stop (n : Nat) (buf : Fin 6 → pkt) (w e : Int)
    (h : (buf (ring w)).seqnum ≠ e % 12) : runLength n buf w e = 0 := by
  cases n with
  | zero => simp [runLength]
  | succ n => rw [runLength_succ, if_neg h]

theorem B_deliver_eq (n : Nat) (r : Receiver)
    (hw : 0 ≤ r.B_windowfirst ∧ r.B_windowfirst < 6)
    (he : 0 ≤ r.expectedseqnum ∧ r.expectedseqnum < 12) :
    ∃ r1 acts, B_deliver n r = some (r1, acts) ∧
      r1.B_buffer = r.B_buffer ∧ r1.B_nextseqnum = r.B_nextseqnum ∧
      r1.packets_received = r.packets_received ∧
      r1.B_windowfirst =
        (r.B_windowfirst + (runLength n r.B_buffer r.B_windowfirst r.expectedseqnum : Nat)) % 6 ∧
      r1.expectedseqnum =
        (r.expectedseqnum + (runLength n r.B_buffer r.B_windowfirst r.expectedseqnum : Nat)) % 12 ∧
      acts = (List.range (runLength n r.B_buffer r.B_windowfirst r.expectedseqnum)).map
        (fun (j : Nat) =>
          Action.tolayer5 Entity.B (r.B_buffer (ring (r.B_windowfirst + (j : Int)))).payload) := by
  induction n generalizing r with
  | zero =>
    refine ⟨r, [], rfl, rfl, rfl, rfl, ?_, ?_, ?_⟩
    · simp only [runLength, List.range_zero, List.takeWhile_nil, List.length_nil, Nat.cast_zero]
      omega
    · simp only [runLength, List.range_zero, List.takeWhile_nil, List.length_nil, Nat.cast_zero]
      omega
    · simp [runLength]
  | succ n ih =>
    have hmod : r.expectedseqnum % 12 = r.expectedseqnum := Int.emod_eq_of_lt he.1 he.2
    by_cases h : (r.B_buffer (ring r.B_windowfirst)).seqnum = r.expectedseqnum
    · obtain ⟨r1, acts, hrun, hb, hn, hpr, hw1, he1, hacts⟩ :=
        ih { r with
               B_windowfirst := (r.B_windowfirst + 1).tmod WINDOWSIZE
               expectedseqnum := (r.expectedseqnum + 1).tmod SEQSPACE }
          (by simp only [WINDOWSIZE]; rw [tmod_six _ (by omega)]; omega)
          (by simp only [SEQSPACE]; rw [tmod_twelve _ (by omega)]; omega)
      simp only at hrun hb hn hpr hw1 he1 hacts
      have hk : runLength n r.B_buffer ((r.B_windowfirst + 1).tmod WINDOWSIZE)
          ((r.expectedseqnum + 1).tmod SEQSPACE)
          = runLength n r.B_buffer (r.B_windowfirst + 1) (r.expectedseqnum + 1) := by
        apply runLength_congr
        · simp only [WINDOWSIZE]; rw [tmod_six _ (by omega)]; omega
        · simp only [SEQSPACE]; rw [tmod_twelve _ (by omega)]; omega
      rw [hk] at hw1 he1 hacts
      have hlen : runLength (n + 1) r.B_buffer r.B_windowfirst r.expectedseqnum
          = 1 + runLength n r.B_buffer (r.B_windowfirst + 1) (r.expectedseqnum + 1) := by
        rw [runLength_succ, if_pos (by rw [hmod]; exact h)]
      refine ⟨r1, Action.tolayer5 Entity.B (r.B_buffer (ring r.B_windowfirst)).payload :: acts,
        ?_, hb, hn, hpr, ?_, ?_, ?_⟩
      · simp only [B_deliver, rd_of_bounds _ _ hw, if_pos h, hrun]
      · rw [hw1, hlen, tmod_six _ (by omega)]
        push_cast
        omega
      · rw [he1, hlen, tmod_twelve _ (by omega)]
        push_cast
        omega
      · rw [hlen, hacts, Nat.add_comm 1, List.range_succ_eq_map, List.map_cons, List.map_map]
        simp only [Nat.cast_zero, add_zero, List.cons.injEq, true_and]
        apply List.map_congr_left
        intro j _
        simp only [Function.comp, Nat.succ_eq_add_one, Nat.cast_add, Nat.cast_one]
        have h1 : ring ((r.B_windowfirst + 1).tmod WINDOWSIZE + (j : Int))
            = ring (r.B_windowfirst + ((j : Int) + 1)) := by
          simp only [WINDOWSIZE]
          rw [tmod_six _ (by omega)]
          apply Fin.ext
          unfold ring
          simp only
          omega
        rw [h1]
    · obtain ⟨r1, acts, hrun, hb, hn, hpr, hw1, he1, hacts⟩ := ih r hw he
      have hz : ∀ m, runLength m r.B_buffer r.B_windowfirst r.expectedseqnum = 0 :=
        fun m => runLength_stop m _ _ _ (by rw [hmod]; exact h)
      rw [hz] at hw1 he1 hacts
      refine ⟨r1, acts, ?_, hb, hn, hpr, ?_, ?_, ?_⟩
      · simp only [B_deliver, rd_of_bounds _ _ hw, if_neg h, hrun]
      · rw [hz]; exact hw1
      · rw [hz]; exact he1
      · rw [hz]; exact hacts

theorem delivered_map_tolayer5 (f : Nat → Block) (l : List Nat) :
    delivered (l.map (fun j => Action.tolayer5 Entity.B (f j))) = l.map f := by
  induction l with
  | nil => rfl
  | cons a l ih => simp [delivered, ih]

theorem inRange_expected (e : Int) :
    inRange e ((e - 1 + 6) % 12) e = true := by
  unfold inRange
  simp only [Bool.or_eq_true, Bool.and_eq_true, decide_eq_true_eq]
  omega

theorem B_input_eq (r : Receiver) (p : pkt) (hp : IsCorrupted p = false)
    (hseq : 0 ≤ p.seqnum ∧ p.seqnum < 12) (hr : B_aligned r) :
    ∃ r1 acts, B_input r p = some (r1, Action.tolayer3 Entity.B (B_ack r.B_nextseqnum p) :: acts) ∧
      r1.B_nextseqnum = (r.B_nextseqnum + 1).tmod SEQSPACE ∧
      r1.packets_received = r.packets_received + 1 ∧
      r1.B_buffer =
        (if inRange r.expectedseqnum ((r.expectedseqnum - 1 + 6) % 12) p.seqnum = true
          then storeAt r.B_buffer p else r.B_buffer) ∧
      r1.B_windowfirst = (r.B_windowfirst + (burst r p : Nat)) % 6 ∧
      r1.expectedseqnum = (r.expectedseqnum + (burst r p : Nat)) % 12 ∧
      acts = (List.range (burst r p)).map (fun (j : Nat) =>
        Action.tolayer5 Entity.B (storeAt r.B_buffer p (ring (r.B_windowfirst + (j : Int)))).payload) := by
  obtain ⟨he0, he1, hw⟩ := hr
  have hidx : (r.expectedseqnum - 1 + WINDOWSIZE).tmod SEQSPACE = (r.expectedseqnum - 1 + 6) % 12 :=
    tmod_twelve _ (by simp only [WINDOWSIZE]; omega)
  have hslot : 0 ≤ p.seqnum.tmod WINDOWSIZE ∧ p.seqnum.tmod WINDOWSIZE < 6 := by
    simp only [WINDOWSIZE]
    rw [tmod_six _ hseq.1]
    omega
  have hstore : wr r.B_buffer (p.seqnum.tmod WINDOWSIZE) p = some (storeAt r.B_buffer p) := by
    rw [wr_of_bounds _ _ _ hslot]
    simp only [WINDOWSIZE]
    rw [tmod_six _ hseq.1]
    rfl
  by_cases hin : inRange r.expectedseqnum ((r.expectedseqnum - 1 + 6) % 12) p.seqnum = true
  · by_cases hexp : p.seqnum = r.expectedseqnum
    · obtain ⟨r1, acts, hrun, hb, hn, hpr, hw1, he2, hacts⟩ :=
        B_deliver_eq 6
          { r with
              B_nextseqnum := (r.B_nextseqnum + 1).tmod SEQSPACE
              packets_received := r.packets_received + 1
              B_buffer := storeAt r.B_buffer p }
          (by simp only; omega) (by simp only; omega)
      simp only at hrun hb hn hpr hw1 he2 hacts
      refine ⟨r1, acts, ?_, hn, hpr, ?_, ?_, ?_, ?_⟩
      · simp only [B_input, hp, if_true, hidx, hin, hstore, if_pos hexp, hrun]
      · rw [if_pos hin, hb]
      · simp only [burst, if_pos hexp]
        exact hw1
      · simp only [burst, if_pos hexp]
        exact he2
      · simp only [burst, if_pos hexp]
        exact hacts
    · refine ⟨{ r with
                  B_nextseqnum := (r.B_nextseqnum + 1).tmod SEQSPACE
                  packets_received := r.packets_received + 1
                  B_buffer := storeAt r.B_buffer p }, [], ?_, rfl, rfl, ?_, ?_, ?_, ?_⟩
      · simp only [B_input, hp, if_true, hidx, hin, hstore, if_neg hexp]
      · rw [if_pos hin]
      · simp only [burst, if_neg hexp, Nat.cast_zero]
        omega
      · simp only [burst, if_neg hexp, Nat.cast_zero]
        omega
      · simp [burst, if_neg hexp]
  · have hexp : p.seqnum ≠ r.expectedseqnum := by
      intro h
      rw [h] at hin
      exact hin (inRange_expected _)
    refine ⟨{ r with
                B_nextseqnum := (r.B_nextseqnum + 1).tmod SEQSPACE
                packets_received := r.packets_received + 1 }, [], ?_, rfl, rfl, ?_, ?_, ?_, ?_⟩
    · simp only [B_input, hp, if_true, hidx, hin]
      rfl
    · rw [if_neg hin]
    · simp only [burst, if_neg hexp, Nat.cast_zero]
      omega
    · simp only [burst, if_neg hexp, Nat.cast_zero]
      omega
    · simp [burst, if_neg hexp]

theorem B_aligned_start : B_aligned B_start := by
  unfold B_aligned
  decide

theorem B_aligned_step (r r1 : Receiver) (p : pkt) (acts : List Action)
    (hr : B_aligned r) (h : B_input r p = some (r1, acts)) : B_aligned r1 := by
  obtain ⟨he0, he1, hw⟩ := hr
  unfold B_input at h
  by_cases hp : IsCorrupted p = false
  · simp only [hp, if_true] at h
    split at h
    · split at h
      · exact absurd h (by simp)
      · rename_i buf hbuf
        split at h
        · rename_i hexp
          obtain ⟨r2, acts2, hrun, -, -, -, hw1, he2, -⟩ :=
            B_deliver_eq 6
              { r with
                  B_nextseqnum := (r.B_nextseqnum + 1).tmod SEQSPACE
                  packets_received := r.packets_received + 1
                  B_buffer := buf }
              (by simp only; omega) (by simp only; omega)
          simp only at hrun hw1 he2
          rw [hrun] at h
          simp only [Option.some.injEq, Prod.mk.injEq] at h
          obtain ⟨rfl, -⟩ := h
          refine ⟨?_, ?_, ?_⟩ <;> omega
        · simp only [Option.some.injEq, Prod.mk.injEq] at h
          obtain ⟨rfl, -⟩ := h
          exact ⟨he0, he1, hw⟩
    · simp only [Option.some.injEq, Prod.mk.injEq] at h
      obtain ⟨rfl, -⟩ := h
      exact ⟨he0, he1, hw⟩
  · rw [if_neg hp] at h
    simp only [Option.some.injEq, Prod.mk.injEq] at h
    obtain ⟨rfl, -⟩ := h
    exact ⟨he0, he1, hw⟩

theorem B_aligned_of_reachable (r : Receiver) (h : B_reachable r) : B_aligned r := by
  induction h with
  | start => exact B_aligned_start
  | step r p r1 acts _ hstep ih => exact B_aligned_step r r1 p acts ih hstep

theorem runLength_max (n : Nat) (buf : Fin 6 → pkt) (w e : Int)
    (h : runLength n buf w e < n) :
    (buf (ring (w + (runLength n buf w e : Nat)))).seqnum
      ≠ (e + (runLength n buf w e : Nat)) % 12 := by
  induction n generalizing w e with
  | zero => omega
  | succ n ih =>
    rw [runLength_succ] at h ⊢
    by_cases hd : (buf (ring w)).seqnum = e % 12
    · rw [if_pos hd] at h ⊢
      have := ih (w + 1) (e + 1) (by omega)
      have h1 : w + ((1 + runLength n buf (w + 1) (e + 1) : Nat) : Int)
          = w + 1 + (runLength n buf (w + 1) (e + 1) : Nat) := by push_cast; omega
      have h2 : e + ((1 + runLength n buf (w + 1) (e + 1) : Nat) : Int)
          = e + 1 + (runLength n buf (w + 1) (e + 1) : Nat) := by push_cast; omega
      rw [h1, h2]
      exact this
    · rw [if_neg hd]
      simpa using hd

theorem storeAt_own_slot (buf : Fin 6 → pkt) (p : pkt) (w : Int)
    (hw : w % 6 = p.seqnum % 6) : storeAt buf p (ring w) = p := by
  unfold storeAt
  rw [if_pos]
  unfold ring
  simp only
  omega

theorem delivered_cons_tolayer3 (e : Entity) (p : pkt) (acts : List Action) :
    delivered (Action.tolayer3 e p :: acts) = delivered acts := rfl

/-- C4: for a receiver state reachable from `B_start` and an uncorrupted
packet `p` with `seqnum` in `0..11`: if `p.seqnum = expectedseqnum = e`,
`B_input` stores `p` and hands to the application, in order, the payloads of
the slots `(B_windowfirst + j) mod 6`, `j = 0..k-1`, where `k` (between 1 and
6) is the length of the longest run of slots with `seqnum = (e + j) mod 12`;
the first payload is the one of `p`; afterwards `expectedseqnum = (e + k) mod
12` and `B_windowfirst` has advanced by `k` modulo 6.  If `p.seqnum` differs
from `expectedseqnum`, nothing is delivered and both counters stay.  After
0, 1, 2 delivered and 4, 5 buffered, packet 3 delivers 3, 4, 5 and sets
`expectedseqnum` to 6. -/
theorem B_input_delivers_run (r : Receiver) (hr : B_reachable r) (p : pkt)
    (hp : IsCorrupted p = false) (hseq : 0 ≤ p.seqnum ∧ p.seqnum < SEQSPACE) :
    (p.seqnum = r.expectedseqnum →
      ∃ k r1 acts, B_input r p = some (r1, acts) ∧
        1 ≤ k ∧ k ≤ 6 ∧
        (∀ j : Nat, j < k →
          (storeAt r.B_buffer p (ring (r.B_windowfirst + (j : Int)))).seqnum
            = (r.expectedseqnum + (j : Int)) % SEQSPACE) ∧
        (k < 6 →
          (storeAt r.B_buffer p (ring (r.B_windowfirst + (k : Int)))).seqnum
            ≠ (r.expectedseqnum + (k : Int)) % SEQSPACE) ∧
        k = runLength 6 (storeAt r.B_buffer p) r.B_windowfirst r.expectedseqnum ∧
        delivered acts = (List.range k).map (fun (j : Nat) =>
          (storeAt r.B_buffer p (ring (r.B_windowfirst + (j : Int)))).payload) ∧
        (delivered acts).head? = some p.payload ∧
        r1.B_buffer = storeAt r.B_buffer p ∧
        r1.expectedseqnum = (r.expectedseqnum + (k : Int)) % SEQSPACE ∧
        r1.B_windowfirst = (r.B_windowfirst + (k : Int)) % WINDOWSIZE) ∧
    (p.seqnum ≠ r.expectedseqnum →
      ∃ r1 acts, B_input r p = some (r1, acts) ∧ delivered acts = [] ∧
        r1.expectedseqnum = r.expectedseqnum ∧ r1.B_windowfirst = r.B_windowfirst) ∧
    (B_exec B_start gapPackets).map (fun x => (delivered x.2, x.1.expectedseqnum))
      = some ([(msgOf 0).data, (msgOf 1).data, (msgOf 2).data], 3) ∧
    ((B_exec B_start gapPackets).bind (fun x => B_input x.1 (dataPkt 3 (msgOf 3)))).map
        (fun x => (delivered x.2, x.1.expectedseqnum))
      = some ([(msgOf 3).data, (msgOf 4).data, (msgOf 5).data], 6) := by
  have hal := B_aligned_of_reachable r hr
  obtain ⟨r1, acts, hrun, -, -, hbuf, hw1, he1, hacts⟩ := B_input_eq r p hp hseq hal
  obtain ⟨he0, he2, hw⟩ := hal
  refine ⟨?_, ?_, by decide, by decide⟩
  · intro hexp
    have hk : burst r p = runLength 6 (storeAt r.B_buffer p) r.B_windowfirst r.expectedseqnum := by
      simp only [burst, if_pos hexp]
    have hown : storeAt r.B_buffer p (ring r.B_windowfirst) = p :=
      storeAt_own_slot _ _ _ (by omega)
    have hpos : 1 ≤ runLength 6 (storeAt r.B_buffer p) r.B_windowfirst r.expectedseqnum := by
      rw [runLength_succ, if_pos (by rw [hown]; omega)]
      omega
    rw [hk] at hw1 he1 hacts
    refine ⟨_, r1, _, hrun, hpos, runLength_le _ _ _ _, ?_, ?_, rfl, ?_, ?_, ?_, he1, hw1⟩
    · intro j hj
      exact runLength_spec 6 _ _ _ j hj
    · intro hlt
      exact runLength_max 6 _ _ _ hlt
    · rw [delivered_cons_tolayer3, hacts]
      exact delivered_map_tolayer5 _ _
    · rw [delivered_cons_tolayer3, hacts, delivered_map_tolayer5, List.head?_map, List.head?_range,
        if_neg (by omega)]
      simp only [Option.map_some', Nat.cast_zero, add_zero, hown]
    · rw [hbuf, hexp, if_pos (inRange_expected _)]
  · intro hexp
    have hk : burst r p = 0 := by simp only [burst, if_neg hexp]
    rw [hk] at hw1 he1 hacts
    refine ⟨r1, _, hrun, ?_, ?_, ?_⟩
    · rw [delivered_cons_tolayer3, hacts]
      rfl
    · rw [he1]
      simp only [Nat.cast_zero, add_zero]
      omega
    · rw [hw1]
      simp only [Nat.cast_zero, add_zero]
      omega

/-- C4, at the start state and the data packet of sequence number 0. -/
theorem B_input_delivers_run_witness :
    ∃ k r1 acts, B_input B_start (dataPkt 0 (msgOf 0)) = some (r1, acts) ∧ 1 ≤ k ∧ k ≤ 6 ∧
      delivered acts = (List.range k).map (fun (j : Nat) =>
        (storeAt B_start.B_buffer (dataPkt 0 (msgOf 0))
          (ring (B_start.B_windowfirst + (j : Int)))).payload) ∧
      (delivered acts).head? = some (dataPkt 0 (msgOf 0)).payload ∧
      r1.expectedseqnum = (B_start.expectedseqnum + (k : Int)) % SEQSPACE := by
  obtain ⟨k, r1, acts, h, h1, h2, -, -, -, h3, h4, -, h5, -⟩ :=
    (B_input_delivers_run B_start B_reachable.start (dataPkt 0 (msgOf 0))
      (IsCorrupted_dataPkt 0 (msgOf 0)) (by decide)).1 (by decide)
  exact ⟨k, r1, acts, h, h1, h2, h3, h4, h5⟩

theorem delivered_append (a b : List Action) :
    delivered (a ++ b) = delivered a ++ delivered b := by
  induction a with
  | nil => rfl
  | cons x a ih => cases x <;> simp [delivered, ih]

theorem getElem?_map_range {α : Type} (f : Nat → α) (k i : Nat) (d : α)
    (h : ((List.range k).map f)[i]? = some d) : i < k ∧ d = f i := by
  rw [List.getElem?_map] at h
  by_cases hi : i < k
  · rw [List.getElem?_range hi] at h
    simp only [Option.map_some', Option.some.injEq] at h
    exact ⟨hi, h.symm⟩
  · rw [List.getElem?_eq_none (by simpa using hi)] at h
    simp at h

theorem B_inv_aligned (arr : List pkt) (n : Nat) (r : Receiver) (h : B_inv arr n r) :
    B_aligned r := by
  obtain ⟨he, hw, -⟩ := h
  unfold B_aligned
  omega

theorem B_inv_start : B_inv [] 0 B_start := by
  refine ⟨rfl, rfl, ?_⟩
  intro j
  exact Or.inr ⟨rfl, Nat.zero_le _⟩

theorem zero_slot_first (n i v : Nat) (hi : i < 6) (hv : (v : Int) = ((n : Int) % 6 + (i : Int)) % 6)
    (h0 : ((n + i : Nat) : Int) % 12 = 0) (hn : n ≤ v) : n = 0 ∧ i = 0 := by
  push_cast at h0
  omega

theorem ring_offset (n j : Nat) (hn : n ≤ j) (hj : j < 6) :
    ((ring ((n : Int) % 6 + ((j - n : Nat) : Int))).val) = j := by
  unfold ring
  simp only
  omega

theorem seq_shift (n i : Nat) : ((n : Int) % 12 + (i : Int)) % 12 = ((n + i : Nat) : Int) % 12 := by
  push_cast
  omega

theorem slot_shift (n i : Nat) : ((n : Int) % 6 + (i : Int)) % 6 = ((n + i : Nat) : Int) % 6 := by
  push_cast
  omega

theorem B_slots_after_store (arr : List pkt) (n : Nat) (buf : Fin 6 → pkt) (p : pkt) (c : Bool)
    (hp : IsCorrupted p = false)
    (hslots : ∀ j : Fin 6, (buf j ∈ arr ∧ IsCorrupted (buf j) = false) ∨
      (buf j = zeroPkt ∧ n ≤ j.val)) (j : Fin 6) :
    ((if c = true then storeAt buf p else buf) j ∈ arr ++ [p] ∧
        IsCorrupted ((if c = true then storeAt buf p else buf) j) = false) ∨
      ((if c = true then storeAt buf p else buf) j = zeroPkt ∧ n ≤ j.val) := by
  have hold : (buf j ∈ arr ++ [p] ∧ IsCorrupted (buf j) = false) ∨
      (buf j = zeroPkt ∧ n ≤ j.val) := by
    rcases hslots j with ⟨hm, hc⟩ | hz
    · exact Or.inl ⟨List.mem_append_left _ hm, hc⟩
    · exact Or.inr hz
  split
  · unfold storeAt
    split
    · exact Or.inl ⟨by simp, hp⟩
    · exact hold
  · exact hold

theorem B_run_slots (arr : List pkt) (n : Nat) (buf : Fin 6 → pkt) (p : pkt)
    (hp : IsCorrupted p = false) (hn : p.seqnum = (n : Int) % 12)
    (hslots : ∀ j : Fin 6, (storeAt buf p j ∈ arr ∧ IsCorrupted (storeAt buf p j) = false) ∨
      (storeAt buf p j = zeroPkt ∧ n ≤ j.val))
    (hpin : p ∈ arr) (i : Nat)
    (hi : i < runLength 6 (storeAt buf p) ((n : Int) % 6) ((n : Int) % 12)) :
    storeAt buf p (ring ((n : Int) % 6 + (i : Int))) ∈ arr ∧
    IsCorrupted (storeAt buf p (ring ((n : Int) % 6 + (i : Int)))) = false ∧
    (storeAt buf p (ring ((n : Int) % 6 + (i : Int)))).seqnum = ((n + i : Nat) : Int) % 12 := by
  have hle := runLength_le 6 (storeAt buf p) ((n : Int) % 6) ((n : Int) % 12)
  have hnum := runLength_spec 6 _ _ _ i hi
  rw [seq_shift] at hnum
  rcases hslots (ring ((n : Int) % 6 + (i : Int))) with ⟨hm, hc⟩ | ⟨hz, hge⟩
  · exact ⟨hm, hc, hnum⟩
  · have h0 : ((n + i : Nat) : Int) % 12 = 0 := by
      rw [← hnum, hz]
      rfl
    have hval : ((ring ((n : Int) % 6 + (i : Int))).val : Int)
        = ((n : Int) % 6 + (i : Int)) % 6 := by
      unfold ring
      simp only
      omega
    obtain ⟨hn0, hi0⟩ := zero_slot_first n i _ (by omega) hval h0 hge
    have hown : storeAt buf p (ring ((n : Int) % 6 + (i : Int))) = p :=
      storeAt_own_slot _ _ _ (by rw [hn, hn0, hi0]; simp)
    rw [hown]
    rw [hown] at hnum
    exact ⟨hpin, hp, hnum⟩

theorem B_input_inv (arr : List pkt) (n : Nat) (r : Receiver) (p : pkt)
    (hinv : B_inv arr n r)
    (hseq : IsCorrupted p = false → 0 ≤ p.seqnum ∧ p.seqnum < SEQSPACE) :
    ∃ r1 acts, B_input r p = some (r1, acts) ∧
      B_inv (arr ++ [p]) (n + (delivered acts).length) r1 ∧
      ∀ i d, (delivered acts)[i]? = some d →
        ∃ q ∈ arr ++ [p], IsCorrupted q = false ∧ q.seqnum = ((n + i : Nat) : Int) % SEQSPACE ∧
          q.payload = d := by
  have hal := B_inv_aligned arr n r hinv
  obtain ⟨he, hw, hslots⟩ := hinv
  by_cases hp : IsCorrupted p = false
  · obtain ⟨r1, acts, hrun, -, -, hbuf, hw1, he1, hacts⟩ := B_input_eq r p hp (hseq hp) hal
    have hslots1 : ∀ j : Fin 6,
        (r1.B_buffer j ∈ arr ++ [p] ∧ IsCorrupted (r1.B_buffer j) = false) ∨
          (r1.B_buffer j = zeroPkt ∧ n ≤ j.val) := by
      intro j
      rw [hbuf]
      exact B_slots_after_store arr n r.B_buffer p _ hp hslots j
    have hstored : 0 < burst r p →
        p.seqnum = r.expectedseqnum ∧ r1.B_buffer = storeAt r.B_buffer p ∧
        burst r p = runLength 6 (storeAt r.B_buffer p) ((n : Int) % 6) ((n : Int) % 12) := by
      intro hpos
      have hexp : p.seqnum = r.expectedseqnum := by
        by_contra hne
        simp only [burst, if_neg hne] at hpos
        omega
      refine ⟨hexp, ?_, ?_⟩
      · rw [hbuf, hexp, if_pos (inRange_expected _)]
      · unfold burst
        rw [if_pos hexp, hw, he]
    have hdel : ∀ i : Nat, i < burst r p →
        storeAt r.B_buffer p (ring ((n : Int) % 6 + (i : Int))) ∈ arr ++ [p] ∧
        IsCorrupted (storeAt r.B_buffer p (ring ((n : Int) % 6 + (i : Int)))) = false ∧
        (storeAt r.B_buffer p (ring ((n : Int) % 6 + (i : Int)))).seqnum
          = ((n + i : Nat) : Int) % 12 := by
      intro i hi
      obtain ⟨hexp, hb1, hk⟩ := hstored (by omega)
      rw [hb1] at hslots1
      exact B_run_slots (arr ++ [p]) n r.B_buffer p hp (by rw [hexp, he]) hslots1 (by simp) i
        (by rw [← hk]; exact hi)
    have hlen : (delivered (Action.tolayer3 Entity.B (B_ack r.B_nextseqnum p) :: acts)).length
        = burst r p := by
      rw [delivered_cons_tolayer3, hacts, delivered_map_tolayer5]
      simp
    refine ⟨r1, _, hrun, ⟨?_, ?_, ?_⟩, ?_⟩
    · rw [hlen, he1, he]
      exact seq_shift n (burst r p)
    · rw [hlen, hw1, hw]
      exact slot_shift n (burst r p)
    · intro j
      rw [hlen]
      rcases hslots1 j with hl | ⟨hz, hn⟩
      · exact Or.inl hl
      · by_cases hfar : n + burst r p ≤ j.val
        · exact Or.inr ⟨hz, hfar⟩
        · have hj := j.isLt
          obtain ⟨hm, hc, -⟩ := hdel (j.val - n) (by omega)
          obtain ⟨-, hb1, -⟩ := hstored (by omega)
          have hring : ring ((n : Int) % 6 + ((j.val - n : Nat) : Int)) = j :=
            Fin.ext (ring_offset n j.val hn hj)
          rw [hring] at hm hc
          rw [hb1]
          exact Or.inl ⟨hm, hc⟩
    · intro i d hd
      rw [delivered_cons_tolayer3, hacts, delivered_map_tolayer5] at hd
      obtain ⟨hi, hd1⟩ := getElem?_map_range _ _ _ _ hd
      obtain ⟨hm, hc, hnum⟩ := hdel i hi
      rw [hw] at hd1
      exact ⟨_, hm, hc, hnum, hd1.symm⟩
  · refine ⟨r, [], ?_, ⟨?_, ?_, ?_⟩, ?_⟩
    · unfold B_input
      rw [if_neg hp]
    · simpa [delivered] using he
    · simpa [delivered] using hw
    · intro j
      simp only [delivered, List.length_nil, add_zero]
      rcases hslots j with ⟨hm, hc⟩ | hz
      · exact Or.inl ⟨List.mem_append_left _ hm, hc⟩
      · exact Or.inr hz
    · intro i d hd
      simp [delivered] at hd

theorem B_exec_append (ps qs : List pkt) (r r1 r2 : Receiver) (a1 a2 : List Action)
    (h1 : B_exec r ps = some (r1, a1)) (h2 : B_exec r1 qs = some (r2, a2)) :
    B_exec r (ps ++ qs) = some (r2, a1 ++ a2) := by
  induction ps generalizing r a1 with
  | nil =>
    simp only [B_exec, Option.some.injEq, Prod.mk.injEq] at h1
    obtain ⟨rfl, rfl⟩ := h1
    simpa using h2
  | cons p ps ih =>
    simp only [B_exec] at h1
    cases hp : B_input r p with
    | none => simp [hp] at h1
    | some x =>
      obtain ⟨r3, a3⟩ := x
      simp only [hp] at h1
      cases hps : B_exec r3 ps with
      | none => simp [hps] at h1
      | some y =>
        obtain ⟨r4, a4⟩ := y
        simp only [hps, Option.some.injEq, Prod.mk.injEq] at h1
        obtain ⟨rfl, rfl⟩ := h1
        rw [List.cons_append, B_exec, hp]
        simp only [ih r3 a4 hps, List.append_assoc]

theorem B_exec_inv (ps : List pkt) (arr : List pkt) (n : Nat) (r : Receiver)
    (hinv : B_inv arr n r)
    (hseq : ∀ p ∈ ps, IsCorrupted p = false → 0 ≤ p.seqnum ∧ p.seqnum < SEQSPACE) :
    ∃ r1 acts, B_exec r ps = some (r1, acts) ∧
      B_inv (arr ++ ps) (n + (delivered acts).length) r1 ∧
      ∀ i d, (delivered acts)[i]? = some d →
        ∃ q ∈ arr ++ ps, IsCorrupted q = false ∧ q.seqnum = ((n + i : Nat) : Int) % SEQSPACE ∧
          q.payload = d := by
  induction ps generalizing arr n r with
  | nil =>
    refine ⟨r, [], rfl, ?_, ?_⟩
    · simpa [delivered] using hinv
    · intro i d hd
      simp [delivered] at hd
  | cons p ps ih =>
    obtain ⟨r1, acts1, hrun1, hinv1, hdel1⟩ :=
      B_input_inv arr n r p hinv (hseq p (List.mem_cons_self _ _))
    obtain ⟨r2, acts2, hrun2, hinv2, hdel2⟩ :=
      ih (arr ++ [p]) (n + (delivered acts1).length) r1 hinv1
        (fun q hq => hseq q (List.mem_cons_of_mem _ hq))
    have hlist : arr ++ [p] ++ ps = arr ++ p :: ps := by simp
    refine ⟨r2, acts1 ++ acts2, ?_, ?_, ?_⟩
    · simp only [B_exec, hrun1, hrun2]
    · rw [delivered_append, List.length_append, ← Nat.add_assoc, ← hlist]
      exact hinv2
    · intro i d hd
      rw [delivered_append] at hd
      by_cases hi : i < (delivered acts1).length
      · rw [List.getElem?_append_left hi] at hd
        obtain ⟨q, hq, hc, hn, hpay⟩ := hdel1 i d hd
        exact ⟨q, by rw [← hlist]; exact List.mem_append_left _ hq, hc, hn, hpay⟩
      · rw [List.getElem?_append_right (by omega)] at hd
        obtain ⟨q, hq, hc, hn, hpay⟩ := hdel2 _ d hd
        refine ⟨q, by rw [← hlist]; exact hq, hc, ?_, hpay⟩
        rw [hn]
        congr 2
        omega

/-- C3: feed `B_input`, from `B_start`, any packets `ps` and then any packets
`qs`, every uncorrupted one with `seqnum` in `0..11`.  All calls return; the
actions of the calls on `ps` are the beginning of the actions of the whole
run; after the calls on `ps`, `expectedseqnum` is the number of payloads
handed to the application so far modulo `SEQSPACE`, and payload number `i`
(`i = 0, 1, 2, ...`) is the payload of an uncorrupted packet of `ps` whose
`seqnum` is `i mod SEQSPACE`. -/
theorem B_delivers_in_order (ps qs : List pkt)
    (hseq : ∀ p ∈ ps ++ qs, IsCorrupted p = false → 0 ≤ p.seqnum ∧ p.seqnum < SEQSPACE) :
    ∃ r acts r2 acts2, B_exec B_start ps = some (r, acts) ∧
      B_exec B_start (ps ++ qs) = some (r2, acts ++ acts2) ∧
      r.expectedseqnum = ((delivered acts).length : Int) % SEQSPACE ∧
      ∀ (i : Nat) (d : Block), (delivered acts)[i]? = some d →
        ∃ p ∈ ps, IsCorrupted p = false ∧ p.seqnum = (i : Int) % SEQSPACE ∧ p.payload = d := by
  obtain ⟨r, acts, hrun, hinv, hdel⟩ :=
    B_exec_inv ps [] 0 B_start B_inv_start (fun p hp => hseq p (List.mem_append_left _ hp))
  obtain ⟨r2, acts2, hrun2, -, -⟩ :=
    B_exec_inv qs _ _ r hinv (fun p hp => hseq p (List.mem_append_right _ hp))
  refine ⟨r, acts, r2, acts2, hrun, B_exec_append ps qs _ _ _ _ _ hrun hrun2, ?_, ?_⟩
  · have := hinv.1
    simpa using this
  · intro i d hd
    obtain ⟨q, hq, hc, hn, hpay⟩ := hdel i d hd
    exact ⟨q, by simpa using hq, hc, by simpa using hn, hpay⟩

/-- C3, at the run that feeds the data packets 1 and then 0. -/
theorem B_delivers_in_order_witness :
    ∃ r acts r2 acts2,
      B_exec B_start [dataPkt 1 (msgOf 1)] = some (r, acts) ∧
      B_exec B_start ([dataPkt 1 (msgOf 1)] ++ [dataPkt 0 (msgOf 0)]) = some (r2, acts ++ acts2) ∧
      r.expectedseqnum = ((delivered acts).length : Int) % SEQSPACE ∧
      ∀ (i : Nat) (d : Block), (delivered acts)[i]? = some d →
        ∃ p ∈ [dataPkt 1 (msgOf 1)], IsCorrupted p = false ∧ p.seqnum = (i : Int) % SEQSPACE ∧
          p.payload = d :=
  B_delivers_in_order [dataPkt 1 (msgOf 1)] [dataPkt 0 (msgOf 0)] (by
    intro p hp _
    simp only [List.singleton_append, List.mem_cons, List.mem_singleton, List.not_mem_nil,
      or_false] at hp
    rcases hp with rfl | rfl <;> decide)

/-! ## The window test -/

/-- C16: for `seqfirst`, `seqlast` and `acknum` in `0..11`, the window test of
`A_input` is the disjunction written in the code and holds iff
`(acknum - seqfirst) mod SEQSPACE ≤ (seqlast - seqfirst) mod SEQSPACE`; for
the window from 10 to 3 it accepts exactly 10, 11, 0, 1, 2 and 3. -/
theorem inRange_iff_offset (seqfirst seqlast acknum : Int)
    (hf : 0 ≤ seqfirst ∧ seqfirst < SEQSPACE) (hl : 0 ≤ seqlast ∧ seqlast < SEQSPACE)
    (ha : 0 ≤ acknum ∧ acknum < SEQSPACE) :
    (inRange seqfirst seqlast acknum = true ↔
      (seqfirst ≤ seqlast ∧ seqfirst ≤ acknum ∧ acknum ≤ seqlast) ∨
      (seqfirst > seqlast ∧ (acknum ≥ seqfirst ∨ acknum ≤ seqlast))) ∧
    (inRange seqfirst seqlast acknum = true ↔
      (acknum - seqfirst) % SEQSPACE ≤ (seqlast - seqfirst) % SEQSPACE) ∧
    (List.range 12).filter (fun (a : Nat) => inRange 10 3 (a : Int)) = [0, 1, 2, 3, 10, 11] := by
  simp only [SEQSPACE] at hf hl ha ⊢
  refine ⟨?_, ?_, by decide⟩
  · unfold inRange
    simp only [Bool.or_eq_true, Bool.and_eq_true, decide_eq_true_eq, ge_iff_le, gt_iff_lt]
  · unfold inRange
    simp only [Bool.or_eq_true, Bool.and_eq_true, decide_eq_true_eq, ge_iff_le, gt_iff_lt]
    omega

/-- C16, at the window from 10 to 3 and the number 11. -/
theorem inRange_iff_offset_witness :
    inRange 10 3 11 = true ↔ ((11 : Int) - 10) % SEQSPACE ≤ ((3 : Int) - 10) % SEQSPACE :=
  (inRange_iff_offset 10 3 11 (by decide) (by decide) (by decide)).2.1

/-! ## Corrupted packets -/

/-- C13: a packet on which `IsCorrupted` holds leaves the whole sender state
as it was when fed to `A_input` and the whole receiver state as it was when
fed to `B_input`; neither handler makes an emulator call (no timer call, no
packet or acknowledgment sent, nothing delivered). -/
theorem corrupted_packet_ignored (s : Sender) (r : Receiver) (p : pkt)
    (hp : IsCorrupted p = true) :
    A_input s p = some (s, []) ∧ B_input r p = some (r, []) := by
  constructor
  · unfold A_input
    rw [if_neg (by rw [hp]; decide)]
  · unfold B_input
    rw [if_neg (by rw [hp]; decide)]

/-- C13, at the start states and the zero packet with checksum 1. -/
theorem corrupted_packet_ignored_witness :
    IsCorrupted garbled = true ∧
    A_input A_start garbled = some (A_start, []) ∧ B_input B_start garbled = some (B_start, []) :=
  ⟨by decide, corrupted_packet_ignored A_start B_start garbled (by decide)⟩

/-! ## Initialisation of the sender -/

/-- C18: run on the state that three submissions and the acknowledgment of
the second one leave, `A_init` returns a state with `ackcount = 1` and slot 1
marked acknowledged. -/
theorem A_init_keeps_marks :
    (A_exec A_start ackedMiddleCalls).map
        (fun x => ((A_init x.1).ackcount, ((A_init x.1).buffer 1).acknum,
                   (A_init x.1).windowcount, (A_init x.1).windowlast))
      = some (1, 1, 0, -1) := by
  decide

/-- C18: for every prior state `A_init` sets `A_nextseqnum = 0`,
`windowfirst = 0`, `windowlast = -1` and `windowcount = 0` and returns
`ackcount`, `buffer` and the counters as they were; on the zero-initialised
statics this gives `ackcount = 0` and no slot marked acknowledged. -/
theorem A_init_assigns (s : Sender) :
    (A_init s).A_nextseqnum = 0 ∧ (A_init s).windowfirst = 0 ∧ (A_init s).windowlast = -1 ∧
    (A_init s).windowcount = 0 ∧ (A_init s).ackcount = s.ackcount ∧
    (A_init s).buffer = s.buffer ∧ (A_init s).window_full = s.window_full ∧
    (A_init s).total_ACKs_received = s.total_ACKs_received ∧
    (A_init s).new_ACKs = s.new_ACKs ∧ (A_init s).packets_resent = s.packets_resent ∧
    A_start.ackcount = 0 ∧ ∀ i : Fin 6, (A_start.buffer i).acknum ≠ 1 := by
  refine ⟨rfl, rfl, rfl, rfl, rfl, rfl, rfl, rfl, rfl, rfl, rfl, ?_⟩
  intro i
  exact (by decide : zeroPkt.acknum ≠ 1)

/-! ## The acknowledged-packet count and the timer -/

/-- C19: after six submissions and their six acknowledgments in order,
`ackcount` is -5 while all six slots are marked acknowledged and
`windowcount` is 0: `ackcount` is negative in a reachable state. -/
theorem ackcount_negative :
    (A_exec A_start drainCalls).map
        (fun x => (x.1.ackcount, x.1.windowcount, x.1.windowfirst, x.1.windowlast,
                   (List.finRange 6).map (fun j => (x.1.buffer j).acknum)))
      = some (-5, 0, 5, 5, [1, 1, 1, 1, 1, 1]) ∧
    ∃ s, A_reachable s ∧ s.ackcount < 0 := by
  have h : (A_exec A_start drainCalls).map (fun x => x.1.ackcount) = some (-5) := by decide
  refine ⟨by decide, ?_⟩
  cases hrun : A_exec A_start drainCalls with
  | none => simp [hrun] at h
  | some x =>
    obtain ⟨s, acts⟩ := x
    simp only [hrun, Option.map_some', Option.some.injEq] at h
    refine ⟨s, A_reachable_of_exec _ _ _ _ A_reachable.start hrun, ?_⟩
    rw [h]
    decide

/-- C12: after six submissions, their six acknowledgments, a seventh
submission and its acknowledgment, the timer flag is still set (no call has
broken the discipline so far) and `windowcount` is 0; the next submission
makes `A_output` call `starttimer` while the flag is set. -/
theorem starttimer_while_armed :
    (A_timed A_start (false, false) seventhAckedCalls).map
        (fun x => (x.2, x.1.windowcount, x.1.windowfirst, x.1.windowlast))
      = some ((true, false), 0, 5, 0) ∧
    ((A_exec A_start seventhAckedCalls).bind (fun x => A_output x.1 (msgOf 7))).map (fun x => x.2)
      = some [Action.tolayer3 Entity.A (dataPkt 7 (msgOf 7)), Action.starttimer Entity.A] ∧
    (A_timed A_start (false, false) (seventhAckedCalls ++ outputs [7])).map (fun x => x.2)
      = some (true, true) := by
  refine ⟨by decide, by decide, by decide⟩

/-! ## Timer calls of `A_input` -/

theorem A_slide_total (n : Nat) (s : Sender)
    (hfirst : 0 ≤ s.windowfirst ∧ s.windowfirst < 6) :
    ∃ s1, A_slide n s = some s1 ∧ s1.windowcount = s.windowcount ∧ s1.buffer = s.buffer ∧
      s1.windowlast = s.windowlast ∧ s1.A_nextseqnum = s.A_nextseqnum ∧
      s1.new_ACKs = s.new_ACKs ∧ s1.total_ACKs_received = s.total_ACKs_received ∧
      0 ≤ s1.windowfirst ∧ s1.windowfirst < 6 := by
  induction n generalizing s with
  | zero => exact ⟨s, rfl, rfl, rfl, rfl, rfl, rfl, rfl, hfirst.1, hfirst.2⟩
  | succ n ih =>
    simp only [A_slide, rd_of_bounds _ _ hfirst]
    split
    · have hnext : 0 ≤ (s.windowfirst + 1).tmod WINDOWSIZE ∧
          (s.windowfirst + 1).tmod WINDOWSIZE < 6 := by
        simp only [WINDOWSIZE]
        rw [tmod_six _ (by omega)]
        omega
      exact ih { s with windowfirst := (s.windowfirst + 1).tmod WINDOWSIZE
                        ackcount := s.ackcount - 1 } hnext
    · exact ih s hfirst

theorem ring_ring_val (i : Int) : ring ((ring i).val : Int) = ring i := by
  apply Fin.ext
  unfold ring
  simp only
  omega

/-- C11: in the state with packets 0 and 1 outstanding, the uncorrupted
acknowledgment of packet 1 is accepted as new (`windowcount` goes from 2 to 1,
`new_ACKs` from 0 to 1) and `A_input` makes no timer call: packet 1 is not the
one at `windowfirst`. -/
theorem A_input_no_timer_call :
    IsCorrupted (ackPkt 1 1) = false ∧ twoSent.windowcount ≠ 0 ∧
    inRange (twoSent.buffer 0).seqnum (twoSent.buffer 1).seqnum (ackPkt 1 1).acknum = true ∧
    (A_input twoSent (ackPkt 1 1)).map (fun x => (x.2, x.1.windowcount, x.1.new_ACKs))
      = some ([], 1, 1) := by
  refine ⟨by decide, by decide, by decide, by decide⟩

/-- C11: for a sender state with `windowfirst` and `windowlast` in `0..5`
and `windowcount ≠ 0`, and an uncorrupted acknowledgment with `acknum ≥ 0`
inside the window range, `A_input` counts the acknowledgment as new; when
`acknum` is the sequence number of the packet at `windowfirst` it calls
`stoptimer` and then `starttimer` iff `windowcount ≥ 1` after the update, and
otherwise it makes no emulator call. -/
theorem A_input_timer_calls (s : Sender) (p : pkt) (hp : IsCorrupted p = false)
    (hfirst : 0 ≤ s.windowfirst ∧ s.windowfirst < 6)
    (hlast : 0 ≤ s.windowlast ∧ s.windowlast < 6)
    (hcount : s.windowcount ≠ 0)
    (hwin : inRange (s.buffer (ring s.windowfirst)).seqnum
              (s.buffer (ring s.windowlast)).seqnum p.acknum = true)
    (hack : 0 ≤ p.acknum) :
    ∃ s1, A_input s p =
        some (s1,
          if (s.buffer (ring s.windowfirst)).seqnum = p.acknum then
            Action.stoptimer Entity.A ::
              (if s1.windowcount ≥ 1 then [Action.starttimer Entity.A] else [])
          else []) ∧
      s1.windowcount = s.windowcount - 1 ∧ s1.new_ACKs = s.new_ACKs + 1 ∧
      s1.total_ACKs_received = s.total_ACKs_received + 1 := by
  have hk : 0 ≤ p.acknum.tmod WINDOWSIZE ∧ p.acknum.tmod WINDOWSIZE < 6 := by
    simp only [WINDOWSIZE]
    rw [tmod_six _ hack]
    omega
  have hfront :
      ((fun j : Fin 6 => if (j.val : Int) = p.acknum.tmod WINDOWSIZE then
          ({ s.buffer (ring (p.acknum.tmod WINDOWSIZE)) with acknum := 1 } : pkt)
        else s.buffer j) (ring s.windowfirst)).seqnum = (s.buffer (ring s.windowfirst)).seqnum := by
    simp only
    split
    · rename_i h
      rw [← h, ring_ring_val]
    · rfl
  simp only [A_input, hp, if_true, ne_eq, hcount, not_false_eq_true, rd_of_bounds _ _ hfirst,
    rd_of_bounds _ _ hlast, hwin, rd_of_bounds _ _ hk, wr_of_bounds _ _ _ hk, hfront]
  by_cases hsame : (s.buffer (ring s.windowfirst)).seqnum = p.acknum
  · obtain ⟨s1, hs1, hc, -, -, -, hn, ht, -, -⟩ :=
      A_slide_total 6
        { s with
            total_ACKs_received := s.total_ACKs_received + 1
            buffer := fun j : Fin 6 => if (j.val : Int) = p.acknum.tmod WINDOWSIZE then
                ({ s.buffer (ring (p.acknum.tmod WINDOWSIZE)) with acknum := 1 } : pkt)
              else s.buffer j
            ackcount := s.ackcount + 1
            windowcount := s.windowcount - 1
            new_ACKs := s.new_ACKs + 1 } hfirst
    simp only at hs1 hc hn ht
    simp only [if_pos hsame, hs1]
    exact ⟨s1, rfl, hc, hn, ht⟩
  · simp only [if_neg hsame]
    exact ⟨_, rfl, rfl, rfl, rfl⟩

/-- C11, at the state with packets 0 and 1 outstanding and the
acknowledgment of packet 0. -/
theorem A_input_timer_calls_witness :
    ∃ s1, A_input twoSent (ackPkt 1 0) =
        some (s1,
          if (twoSent.buffer (ring twoSent.windowfirst)).seqnum = (ackPkt 1 0).acknum then
            Action.stoptimer Entity.A ::
              (if s1.windowcount ≥ 1 then [Action.starttimer Entity.A] else [])
          else []) ∧
      s1.windowcount = twoSent.windowcount - 1 ∧ s1.new_ACKs = twoSent.new_ACKs + 1 ∧
      s1.total_ACKs_received = twoSent.total_ACKs_received + 1 :=
  A_input_timer_calls twoSent (ackPkt 1 0) (by decide) (by decide) (by decide) (by decide)
    (by decide) (by decide)

/-! ## The acknowledgment and the acceptance range of `B_input` -/

theorem B_deliver_total (n : Nat) (r : Receiver)
    (hw : 0 ≤ r.B_windowfirst ∧ r.B_windowfirst < 6) :
    ∃ r1 acts, B_deliver n r = some (r1, acts) ∧ r1.B_nextseqnum = r.B_nextseqnum ∧
      r1.packets_received = r.packets_received ∧
      ∀ x ∈ acts, ∃ d, x = Action.tolayer5 Entity.B d := by
  induction n generalizing r with
  | zero =>
    refine ⟨r, [], rfl, rfl, rfl, ?_⟩
    intro x hx
    simp at hx
  | succ n ih =>
    simp only [B_deliver, rd_of_bounds _ _ hw]
    split
    · have hnext : 0 ≤ (r.B_windowfirst + 1).tmod WINDOWSIZE ∧
          (r.B_windowfirst + 1).tmod WINDOWSIZE < 6 := by
        simp only [WINDOWSIZE]
        rw [tmod_six _ (by omega)]
        omega
      obtain ⟨r1, acts, hrun, hn, hpr, hall⟩ :=
        ih { r with
               B_windowfirst := (r.B_windowfirst + 1).tmod WINDOWSIZE
               expectedseqnum := (r.expectedseqnum + 1).tmod SEQSPACE } hnext
      simp only at hn hpr
      rw [hrun]
      refine ⟨r1, _, rfl, hn, hpr, ?_⟩
      intro x hx
      rcases List.mem_cons.mp hx with rfl | hx
      · exact ⟨_, rfl⟩
      · exact hall x hx
    · exact ih r hw

theorem IsCorrupted_B_ack (n : Int) (p : pkt) : IsCorrupted (B_ack n p) = false := by
  simp [IsCorrupted, B_ack, ComputeChecksum]

/-- C14: for a receiver state with `B_windowfirst` in `0..5` and
`B_nextseqnum ≥ 0`, and an uncorrupted packet `p` with `seqnum ≥ 0`, in the
acceptance range or not, `B_input` hands exactly one packet to layer 3, before
any delivery: the acknowledgment with `acknum = p.seqnum`, `seqnum` the old
`B_nextseqnum`, twenty payload characters `'0'` (code 48) and a matching
checksum; afterwards `B_nextseqnum` is the old value plus 1 modulo `SEQSPACE`
and `packets_received` has grown by 1. -/
theorem B_input_acknowledges (r : Receiver) (p : pkt) (hp : IsCorrupted p = false)
    (hw : 0 ≤ r.B_windowfirst ∧ r.B_windowfirst < 6) (hnext : 0 ≤ r.B_nextseqnum)
    (hseq : 0 ≤ p.seqnum) :
    ∃ r1 a rest, B_input r p = some (r1, Action.tolayer3 Entity.B a :: rest) ∧
      (∀ x ∈ rest, ∃ d, x = Action.tolayer5 Entity.B d) ∧
      a.acknum = p.seqnum ∧ a.seqnum = r.B_nextseqnum ∧
      a.payload.val = List.replicate 20 48 ∧ IsCorrupted a = false ∧
      r1.B_nextseqnum = (r.B_nextseqnum + 1) % SEQSPACE ∧
      r1.packets_received = r.packets_received + 1 := by
  have hslot : 0 ≤ p.seqnum.tmod WINDOWSIZE ∧ p.seqnum.tmod WINDOWSIZE < 6 := by
    simp only [WINDOWSIZE]
    rw [tmod_six _ hseq]
    omega
  have hcount : (r.B_nextseqnum + 1).tmod SEQSPACE = (r.B_nextseqnum + 1) % SEQSPACE :=
    tmod_twelve _ (by omega)
  simp only [B_input, hp, if_true, wr_of_bounds _ _ _ hslot]
  split
  · split
    · obtain ⟨r1, acts, hrun, hn, hpr, hall⟩ :=
        B_deliver_total 6
          { r with
              B_nextseqnum := (r.B_nextseqnum + 1).tmod SEQSPACE
              packets_received := r.packets_received + 1
              B_buffer := fun j : Fin 6 =>
                if (j.val : Int) = p.seqnum.tmod WINDOWSIZE then p else r.B_buffer j } hw
      simp only at hn hpr
      rw [hrun]
      exact ⟨r1, _, acts, rfl, hall, rfl, rfl, rfl, IsCorrupted_B_ack _ _, by rw [hn, hcount], hpr⟩
    · refine ⟨_, _, [], rfl, ?_, rfl, rfl, rfl, IsCorrupted_B_ack _ _, hcount, rfl⟩
      intro x hx
      simp at hx
  · refine ⟨_, _, [], rfl, ?_, rfl, rfl, rfl, IsCorrupted_B_ack _ _, hcount, rfl⟩
    intro x hx
    simp at hx

/-- C14, at the start state and the data packet of sequence number 9, which
is outside the acceptance range. -/
theorem B_input_acknowledges_witness :
    inRange B_start.expectedseqnum 5 (dataPkt 9 (msgOf 9)).seqnum = false ∧
    ∃ r1 a rest, B_input B_start (dataPkt 9 (msgOf 9)) = some (r1, Action.tolayer3 Entity.B a :: rest) ∧
      (∀ x ∈ rest, ∃ d, x = Action.tolayer5 Entity.B d) ∧
      a.acknum = (dataPkt 9 (msgOf 9)).seqnum ∧ a.seqnum = B_start.B_nextseqnum ∧
      a.payload.val = List.replicate 20 48 ∧ IsCorrupted a = false ∧
      r1.B_nextseqnum = (B_start.B_nextseqnum + 1) % SEQSPACE ∧
      r1.packets_received = B_start.packets_received + 1 :=
  ⟨by decide, B_input_acknowledges B_start (dataPkt 9 (msgOf 9)) (IsCorrupted_dataPkt 9 (msgOf 9))
    (by decide) (by decide) (by decide)⟩

theorem inRange_iff_window (e x : Int) (he : 0 ≤ e ∧ e < 12) (hx : 0 ≤ x ∧ x < 12) :
    inRange e ((e - 1 + 6) % 12) x = true ↔ (x - e) % 12 < 6 := by
  unfold inRange
  simp only [Bool.or_eq_true, Bool.and_eq_true, decide_eq_true_eq, ge_iff_le, gt_iff_lt]
  omega

/-- C15: for a receiver state with `expectedseqnum` in `0..11` and
`B_windowfirst` in `0..5`, and an uncorrupted packet `p` with `seqnum` in
`0..11`: `(p.seqnum - expectedseqnum) mod SEQSPACE < WINDOWSIZE` says that
`p.seqnum` is one of `expectedseqnum, ..., expectedseqnum + 5` modulo
`SEQSPACE`; when it holds `B_input` stores `p` at index `p.seqnum mod
WINDOWSIZE`, and when it fails `B_input` returns `B_buffer`, `B_windowfirst`
and `expectedseqnum` as they were and delivers nothing. -/
theorem B_input_stores_in_range (r : Receiver) (p : pkt) (hp : IsCorrupted p = false)
    (he : 0 ≤ r.expectedseqnum ∧ r.expectedseqnum < SEQSPACE)
    (hw : 0 ≤ r.B_windowfirst ∧ r.B_windowfirst < 6)
    (hseq : 0 ≤ p.seqnum ∧ p.seqnum < SEQSPACE) :
    ((p.seqnum - r.expectedseqnum) % SEQSPACE < WINDOWSIZE ↔
      ∃ j : Int, 0 ≤ j ∧ j < WINDOWSIZE ∧ p.seqnum = (r.expectedseqnum + j) % SEQSPACE) ∧
    ((p.seqnum - r.expectedseqnum) % SEQSPACE < WINDOWSIZE →
      ∃ r1 acts, B_input r p = some (r1, acts) ∧ r1.B_buffer = storeAt r.B_buffer p ∧
        r1.B_buffer (ring p.seqnum) = p) ∧
    (¬ (p.seqnum - r.expectedseqnum) % SEQSPACE < WINDOWSIZE →
      ∃ r1 acts, B_input r p = some (r1, acts) ∧ r1.B_buffer = r.B_buffer ∧
        r1.B_windowfirst = r.B_windowfirst ∧ r1.expectedseqnum = r.expectedseqnum ∧
        delivered acts = []) := by
  simp only [SEQSPACE, WINDOWSIZE] at he hseq ⊢
  have hidx : (r.expectedseqnum - 1 + WINDOWSIZE).tmod SEQSPACE = (r.expectedseqnum - 1 + 6) % 12 :=
    tmod_twelve _ (by simp only [WINDOWSIZE]; omega)
  have hslot : 0 ≤ p.seqnum.tmod WINDOWSIZE ∧ p.seqnum.tmod WINDOWSIZE < 6 := by
    simp only [WINDOWSIZE]
    rw [tmod_six _ hseq.1]
    omega
  have hstore : wr r.B_buffer (p.seqnum.tmod WINDOWSIZE) p = some (storeAt r.B_buffer p) := by
    rw [wr_of_bounds _ _ _ hslot]
    simp only [WINDOWSIZE]
    rw [tmod_six _ hseq.1]
    rfl
  refine ⟨?_, ?_, ?_⟩
  · constructor
    · intro h
      exact ⟨(p.seqnum - r.expectedseqnum) % 12, by omega, h, by omega⟩
    · rintro ⟨j, hj0, hj1, hj⟩
      omega
  · intro hin
    have hin1 := (inRange_iff_window _ _ he hseq).mpr hin
    simp only [B_input, hp, if_true, hidx, hin1, hstore]
    split
    · obtain ⟨r1, acts, hrun, hb, -⟩ :=
        B_deliver_eq 6
          { r with
              B_nextseqnum := (r.B_nextseqnum + 1).tmod SEQSPACE
              packets_received := r.packets_received + 1
              B_buffer := storeAt r.B_buffer p } hw he
      simp only at hb
      rw [hrun]
      exact ⟨r1, _, rfl, hb, by rw [hb]; exact storeAt_own_slot _ _ _ rfl⟩
    · exact ⟨_, _, rfl, rfl, storeAt_own_slot _ _ _ rfl⟩
  · intro hout
    have hout1 : ¬ inRange r.expectedseqnum ((r.expectedseqnum - 1 + 6) % 12) p.seqnum = true :=
      fun h => hout ((inRange_iff_window _ _ he hseq).mp h)
    simp only [B_input, hp, if_true, hidx, hout1]
    exact ⟨_, _, rfl, rfl, rfl, rfl, rfl⟩

/-- C15, at the start state and the data packet of sequence number 4. -/
theorem B_input_stores_in_range_witness :
    ∃ r1 acts, B_input B_start (dataPkt 4 (msgOf 4)) = some (r1, acts) ∧
      r1.B_buffer = storeAt B_start.B_buffer (dataPkt 4 (msgOf 4)) ∧
      r1.B_buffer (ring (dataPkt 4 (msgOf 4)).seqnum) = dataPkt 4 (msgOf 4) :=
  (B_input_stores_in_range B_start (dataPkt 4 (msgOf 4)) (IsCorrupted_dataPkt 4 (msgOf 4))
    (by decide) (by decide) (by decide)).2.1 (by decide)

/-! ## The checksum -/

theorem wrap32_add_wrap32 (a b : Int) : wrap32 (wrap32 a + b) = wrap32 (a + b) := by
  unfold wrap32
  omega

theorem foldl_wrap32 (f : Nat → Int) (l : List Nat) (a : Int) :
    l.foldl (fun checksum i => wrap32 (checksum + f i)) (wrap32 a)
      = wrap32 (a + (l.map f).sum) := by
  induction l generalizing a with
  | nil => simp
  | cons x l ih =>
    simp only [List.foldl_cons, List.map_cons, List.sum_cons]
    rw [wrap32_add_wrap32, ih (a + f x), Int.add_assoc]

theorem ComputeChecksum_eq_wrap32 (p : pkt) : ComputeChecksum p = wrap32 (fieldSum p) := by
  unfold ComputeChecksum fieldSum
  exact foldl_wrap32 (fun i => p.payload.val.getD i 0) (List.range 20) (p.seqnum + p.acknum)

theorem wrap32_shift_ne (a x y : Int) (hx : isInt x) (hy : isInt y) (hne : x ≠ y) :
    wrap32 (a + x) ≠ wrap32 (a + y) := by
  unfold wrap32
  obtain ⟨hx0, hx1⟩ := hx
  obtain ⟨hy0, hy1⟩ := hy
  omega

theorem sum_range_single (f g : Nat → Int) (k n : Nat)
    (h : ∀ i : Nat, i < n → i ≠ k → f i = g i) :
    ((List.range n).map f).sum
      = ((List.range n).map g).sum + (if k < n then f k - g k else 0) := by
  induction n with
  | zero => simp
  | succ n ih =>
    have ih1 := ih (fun i hi hne => h i (by omega) hne)
    simp only [List.range_succ, List.map_append, List.sum_append, List.map_cons, List.map_nil,
      List.sum_cons, List.sum_nil, add_zero]
    rw [ih1]
    by_cases hk : k = n
    · subst hk
      simp only [Nat.lt_irrefl, if_false, Nat.lt_succ_self, if_true]
      omega
    · have hn := h n (by omega) (fun hc => hk hc.symm)
      by_cases hlt : k < n
      · rw [if_pos hlt, if_pos (by omega), hn]
        omega
      · rw [if_neg hlt, if_neg (by omega), hn]
        omega

/-- C17: the data packet with payload characters 1, 2, 0, ... and the packet
with the first two characters exchanged differ in two payload characters and
have the same checksum; the second one, carrying the checksum field of the
first, is not reported as corrupted. -/
theorem ComputeChecksum_collision :
    pktOneTwo.payload ≠ pktTwoOne.payload ∧
    pktOneTwo.seqnum = pktTwoOne.seqnum ∧ pktOneTwo.acknum = pktTwoOne.acknum ∧
    pktOneTwo.checksum = pktTwoOne.checksum ∧
    ComputeChecksum pktOneTwo = ComputeChecksum pktTwoOne ∧
    IsCorrupted pktOneTwo = false ∧ IsCorrupted pktTwoOne = false := by
  decide

/-- C17: two packets that differ in exactly one of `seqnum`, `acknum` and the
20 payload characters, the two differing values being C `int`s, have
different checksums; so replacing one such field of an uncorrupted packet and
keeping its checksum field makes `IsCorrupted` return true. -/
theorem ComputeChecksum_single_change (p q : pkt) (h : differInOne p q) :
    ComputeChecksum p ≠ ComputeChecksum q ∧
    (IsCorrupted p = false → q.checksum = p.checksum → IsCorrupted q = true) := by
  have hne : ComputeChecksum p ≠ ComputeChecksum q := by
    rw [ComputeChecksum_eq_wrap32, ComputeChecksum_eq_wrap32]
    unfold fieldSum
    rcases h with ⟨hs, hp1, hq1, ha, hpay⟩ | ⟨hs, ha, hp1, hq1, hpay⟩ | ⟨hs, ha, k, hk, hd, hp1, hq1, hrest⟩
    · rw [ha, hpay]
      have := wrap32_shift_ne
        (q.acknum + ((List.range 20).map (fun i => q.payload.val.getD i 0)).sum) _ _ hp1 hq1 hs
      intro hc
      apply this
      have e1 : ∀ x : Int, q.acknum + ((List.range 20).map
            (fun i => q.payload.val.getD i 0)).sum + x
          = x + q.acknum + ((List.range 20).map (fun i => q.payload.val.getD i 0)).sum :=
        fun x => by omega
      rw [e1 p.seqnum, e1 q.seqnum]
      exact hc
    · rw [hs, hpay]
      have := wrap32_shift_ne
        (q.seqnum + ((List.range 20).map (fun i => q.payload.val.getD i 0)).sum) _ _ hp1 hq1 ha
      intro hc
      apply this
      have e1 : ∀ x : Int, q.seqnum + ((List.range 20).map
            (fun i => q.payload.val.getD i 0)).sum + x
          = q.seqnum + x + ((List.range 20).map (fun i => q.payload.val.getD i 0)).sum :=
        fun x => by omega
      rw [e1 p.acknum, e1 q.acknum]
      exact hc
    · rw [hs, ha, sum_range_single (fun i => p.payload.val.getD i 0)
        (fun i => q.payload.val.getD i 0) k 20 hrest, if_pos hk]
      have := wrap32_shift_ne
        (q.seqnum + q.acknum + ((List.range 20).map (fun i => q.payload.val.getD i 0)).sum
          - q.payload.val.getD k 0) _ _ hp1 hq1 hd
      intro hc
      apply this
      have e1 : ∀ x : Int, q.seqnum + q.acknum + ((List.range 20).map
            (fun i => q.payload.val.getD i 0)).sum - q.payload.val.getD k 0 + x
          = q.seqnum + q.acknum + (((List.range 20).map (fun i => q.payload.val.getD i 0)).sum
            + (x - q.payload.val.getD k 0)) := fun x => by omega
      rw [e1 (p.payload.val.getD k 0), e1 (q.payload.val.getD k 0)]
      simp only [sub_self, add_zero]
      exact hc
  refine ⟨hne, ?_⟩
  intro hp hq
  unfold IsCorrupted at hp ⊢
  have hpc : p.checksum = ComputeChecksum p := by
    by_contra hc
    rw [if_neg hc] at hp
    exact absurd hp (by decide)
  rw [if_neg (by rw [hq, hpc]; exact hne)]

/-- C17, at the data packet of sequence number 0 and the same packet with
sequence number 5. -/
theorem ComputeChecksum_single_change_witness :
    ComputeChecksum (dataPkt 0 (msgOf 0)) ≠ ComputeChecksum { dataPkt 0 (msgOf 0) with seqnum := 5 } ∧
    (IsCorrupted (dataPkt 0 (msgOf 0)) = false →
      ({ dataPkt 0 (msgOf 0) with seqnum := 5 } : pkt).checksum = (dataPkt 0 (msgOf 0)).checksum →
      IsCorrupted { dataPkt 0 (msgOf 0) with seqnum := 5 } = true) :=
  ComputeChecksum_single_change (dataPkt 0 (msgOf 0)) { dataPkt 0 (msgOf 0) with seqnum := 5 }
    (Or.inl ⟨by decide, by decide, by decide, rfl, rfl⟩)

/-! ## Sequence numbers and slots of the sender -/

theorem wr_eq_some (a b : Fin 6 → pkt) (i : Int) (p : pkt) (h : wr a i p = some b) :
    (0 ≤ i ∧ i < 6) ∧ b = fun j => if (j.val : Int) = i then p else a j := by
  unfold wr at h
  by_cases hi : 0 ≤ i ∧ i < 6
  · rw [if_pos hi] at h
    exact ⟨hi, (Option.some.inj h).symm⟩
  · rw [if_neg hi] at h
    exact absurd h (by simp)

theorem rd_eq_some (a : Fin 6 → pkt) (i : Int) (p : pkt) (h : rd a i = some p) :
    (0 ≤ i ∧ i < 6) ∧ p = a (ring i) := by
  by_cases hi : 0 ≤ i ∧ i < 6
  · rw [rd_of_bounds a i hi] at h
    exact ⟨hi, (Option.some.inj h).symm⟩
  · unfold rd at h
    rw [dif_neg hi] at h
    exact absurd h (by simp)

theorem A_slide_keeps (n : Nat) (s s1 : Sender) (h : A_slide n s = some s1) :
    s1.buffer = s.buffer ∧ s1.windowlast = s.windowlast ∧ s1.A_nextseqnum = s.A_nextseqnum := by
  induction n generalizing s with
  | zero =>
    simp only [A_slide, Option.some.injEq] at h
    subst h
    exact ⟨rfl, rfl, rfl⟩
  | succ n ih =>
    simp only [A_slide] at h
    split at h
    · exact absurd h (by simp)
    · split at h
      · have hrec := ih _ h
        exact hrec
      · exact ih s h

theorem A_resend_keeps (n i : Nat) (s s1 : Sender) (acts : List Action)
    (h : A_resend n i s = some (s1, acts)) :
    s1.buffer = s.buffer ∧ s1.windowlast = s.windowlast ∧ s1.A_nextseqnum = s.A_nextseqnum := by
  induction n generalizing i with
  | zero =>
    simp only [A_resend, Option.some.injEq, Prod.mk.injEq] at h
    obtain ⟨rfl, -⟩ := h
    exact ⟨rfl, rfl, rfl⟩
  | succ n ih =>
    simp only [A_resend] at h
    split at h
    · exact absurd h (by simp)
    · split at h
      · simp only [Option.some.injEq, Prod.mk.injEq] at h
        obtain ⟨rfl, -⟩ := h
        exact ⟨rfl, rfl, rfl⟩
      · exact ih _ h

theorem A_input_keeps (s s1 : Sender) (p : pkt) (acts : List Action)
    (h : A_input s p = some (s1, acts)) :
    s1.windowlast = s.windowlast ∧ s1.A_nextseqnum = s.A_nextseqnum ∧
    ∀ i : Fin 6, (s1.buffer i).seqnum = (s.buffer i).seqnum := by
  unfold A_input at h
  split at h
  · simp only at h
    split at h
    · split at h
      · split at h
        · split at h
          · exact absurd h (by simp)
          · rename_i slot hslot
            split at h
            · exact absurd h (by simp)
            · rename_i buf hbuf
              obtain ⟨-, rfl⟩ := wr_eq_some _ _ _ _ hbuf
              obtain ⟨-, rfl⟩ := rd_eq_some _ _ _ hslot
              have hseq : ∀ i : Fin 6,
                  ((fun j : Fin 6 => if (j.val : Int) = p.acknum.tmod WINDOWSIZE then
                      ({ s.buffer (ring (p.acknum.tmod WINDOWSIZE)) with acknum := 1 } : pkt)
                    else s.buffer j) i).seqnum = (s.buffer i).seqnum := by
                intro i
                simp only
                split
                · rename_i hi
                  have hring : ring (p.acknum.tmod WINDOWSIZE) = i := by
                    apply Fin.ext
                    unfold ring
                    simp only
                    have hlt := i.isLt
                    omega
                  rw [hring]
                · rfl
              split at h
              · exact absurd h (by simp)
              · split at h
                · split at h
                  · exact absurd h (by simp)
                  · rename_i s2 hs2
                    simp only [Option.some.injEq, Prod.mk.injEq] at h
                    obtain ⟨rfl, -⟩ := h
                    obtain ⟨hb, hl, hn⟩ := A_slide_keeps _ _ _ hs2
                    simp only at hb hl hn
                    refine ⟨hl, hn, ?_⟩
                    intro i
                    rw [hb]
                    exact hseq i
                · simp only [Option.some.injEq, Prod.mk.injEq] at h
                  obtain ⟨rfl, -⟩ := h
                  exact ⟨rfl, rfl, hseq⟩
        · simp only [Option.some.injEq, Prod.mk.injEq] at h
          obtain ⟨rfl, -⟩ := h
          exact ⟨rfl, rfl, fun _ => rfl⟩
      · exact absurd h (by simp)
    · simp only [Option.some.injEq, Prod.mk.injEq] at h
      obtain ⟨rfl, -⟩ := h
      exact ⟨rfl, rfl, fun _ => rfl⟩
  · simp only [Option.some.injEq, Prod.mk.injEq] at h
    obtain ⟨rfl, -⟩ := h
    exact ⟨rfl, rfl, fun _ => rfl⟩

theorem next_slot (wl n : Int)
    (h : (wl = -1 ∧ n = 0) ∨ (0 ≤ wl ∧ wl < 6 ∧ wl = (n - 1) % 6)) :
    0 ≤ wl + 1 ∧ (wl + 1) % 6 = ((n + 1) % 12 - 1) % 6 ∧ n % 6 = (wl + 1) % 6 ∧
    0 ≤ (n + 1) % 12 ∧ (n + 1) % 12 < 12 := by
  omega

theorem A_inv_start : A_inv A_start History.empty := by
  refine ⟨by decide, Or.inl ⟨rfl, rfl, rfl, fun _ => rfl⟩, ?_⟩
  intro i hi
  exact absurd hi (by simp [History.empty])

theorem A_inv_output (s s1 : Sender) (h h1 : History) (message : msg) (hinv : A_inv s h)
    (hstep : A_stepH s h (ACall.output message) = some (s1, h1)) : A_inv s1 h1 := by
  obtain ⟨hn, hlast, hslots⟩ := hinv
  have harith := next_slot s.windowlast s.A_nextseqnum
    (by
      rcases hlast with ⟨-, hl, hz, -⟩ | ⟨-, h0, h1, h2⟩
      · exact Or.inl ⟨hl, hz⟩
      · exact Or.inr ⟨h0, h1, h2⟩)
  obtain ⟨hl0, hl1, hl2, hn0, hn1⟩ := harith
  have htl : (s.windowlast + 1).tmod WINDOWSIZE = (s.windowlast + 1) % 6 := tmod_six _ hl0
  have htn : (s.A_nextseqnum + 1).tmod SEQSPACE = (s.A_nextseqnum + 1) % 12 :=
    tmod_twelve _ (by omega)
  have hidx : 0 ≤ (s.windowlast + 1) % 6 ∧ (s.windowlast + 1) % 6 < 6 := by omega
  unfold A_stepH at hstep
  simp only [A_step] at hstep
  by_cases hroom : s.windowcount + s.ackcount < WINDOWSIZE
  · simp only [A_output, if_pos hroom, htl, htn, wr_of_bounds _ _ _ hidx, sends, if_true,
      Option.some.injEq, Prod.mk.injEq] at hstep
    obtain ⟨rfl, rfl⟩ := hstep
    refine ⟨⟨hn0, hn1⟩, Or.inr ⟨by simp, hidx.1, hidx.2, hl1⟩, ?_⟩
    intro i hi
    simp only at hi ⊢
    by_cases hslot : (i.val : Int) = (s.windowlast + 1) % 6
    · rw [if_pos hslot]
      simp only
      exact ⟨hn.1, hn.2, by rw [hl2, hslot]⟩
    · rw [if_neg hslot] at hi ⊢
      exact hslots i hi
  · simp only [A_output, if_neg hroom, sends, Bool.false_eq_true, if_false, Option.some.injEq,
      Prod.mk.injEq] at hstep
    obtain ⟨rfl, rfl⟩ := hstep
    exact ⟨hn, hlast, hslots⟩

theorem A_inv_keeps (s s1 : Sender) (h : History) (hinv : A_inv s h)
    (hl : s1.windowlast = s.windowlast) (hn : s1.A_nextseqnum = s.A_nextseqnum)
    (hb : ∀ i : Fin 6, (s1.buffer i).seqnum = (s.buffer i).seqnum) : A_inv s1 h := by
  unfold A_inv at hinv ⊢
  simp only [hl, hn, hb]
  exact hinv

theorem A_inv_step (s s1 : Sender) (h h1 : History) (c : ACall) (hinv : A_inv s h)
    (hstep : A_stepH s h c = some (s1, h1)) : A_inv s1 h1 := by
  cases c with
  | output message => exact A_inv_output s s1 h h1 message hinv hstep
  | input packet =>
    unfold A_stepH at hstep
    simp only [A_step] at hstep
    cases hrun : A_input s packet with
    | none => simp [hrun] at hstep
    | some x =>
      obtain ⟨s2, acts⟩ := x
      simp only [hrun, Option.some.injEq, Prod.mk.injEq] at hstep
      obtain ⟨rfl, rfl⟩ := hstep
      obtain ⟨hl, hn, hb⟩ := A_input_keeps s s2 packet acts hrun
      exact A_inv_keeps s s2 h hinv hl hn hb
  | timerinterrupt =>
    unfold A_stepH at hstep
    simp only [A_step] at hstep
    cases hrun : A_timerinterrupt s with
    | none => simp [hrun] at hstep
    | some x =>
      obtain ⟨s2, acts⟩ := x
      simp only [hrun, Option.some.injEq, Prod.mk.injEq] at hstep
      obtain ⟨rfl, rfl⟩ := hstep
      unfold A_timerinterrupt at hrun
      split at hrun
      · obtain ⟨hb, hl, hn⟩ := A_resend_keeps _ _ _ _ _ hrun
        exact A_inv_keeps s s2 h hinv hl hn (fun i => by rw [hb])
      · simp only [Option.some.injEq, Prod.mk.injEq] at hrun
        obtain ⟨rfl, -⟩ := hrun
        exact hinv

theorem A_inv_of_reachableH (s : Sender) (h : History) (hr : A_reachableH s h) : A_inv s h := by
  induction hr with
  | start => exact A_inv_start
  | step s h c s1 h1 _ hstep ih => exact A_inv_step s s1 h h1 c ih hstep

theorem A_reachable_has_history (s : Sender) (hr : A_reachable s) : ∃ h, A_reachableH s h := by
  induction hr with
  | start => exact ⟨History.empty, A_reachableH.start⟩
  | step s c s1 acts _ hstep ih =>
    obtain ⟨h, hh⟩ := ih
    cases hH : A_stepH s h c with
    | none =>
      unfold A_stepH at hH
      rw [hstep] at hH
      cases c with
      | output message =>
        simp only at hH
        split at hH <;> exact absurd hH (by simp)
      | input packet => exact absurd hH (by simp)
      | timerinterrupt => exact absurd hH (by simp)
    | some x =>
      obtain ⟨s2, h2⟩ := x
      have hs : s2 = s1 := by
        unfold A_stepH at hH
        rw [hstep] at hH
        cases c <;> simp only at hH
        · split at hH <;>
            (simp only [Option.some.injEq, Prod.mk.injEq] at hH; exact hH.1.symm)
        · simp only [Option.some.injEq, Prod.mk.injEq] at hH
          exact hH.1.symm
        · simp only [Option.some.injEq, Prod.mk.injEq] at hH
          exact hH.1.symm
      subst hs
      exact ⟨h2, A_reachableH.step s h c s2 h2 hh hH⟩

/-- C20: in every sender state reachable from `A_start`, taken with its
history: `A_nextseqnum` is in `0..11`; once at least one message has been
accepted, `windowlast` is in `0..5` and equals `(A_nextseqnum - 1) mod
WINDOWSIZE`; and every slot `i` that `A_output` has written holds a packet
with `seqnum` in `0..11` and `seqnum mod WINDOWSIZE = i`, so the index
`acknum % WINDOWSIZE` that `A_input` marks for `acknum = seqnum` is `i`. -/
theorem A_sequence_slots (s : Sender) (h : History) (hr : A_reachableH s h) :
    (0 ≤ s.A_nextseqnum ∧ s.A_nextseqnum < SEQSPACE) ∧
    (1 ≤ h.accepted →
      0 ≤ s.windowlast ∧ s.windowlast < WINDOWSIZE ∧
      s.windowlast = (s.A_nextseqnum - 1) % WINDOWSIZE) ∧
    ∀ i : Fin 6, h.stored i = true →
      (0 ≤ (s.buffer i).seqnum ∧ (s.buffer i).seqnum < SEQSPACE) ∧
      (s.buffer i).seqnum % WINDOWSIZE = (i.val : Int) ∧
      (s.buffer i).seqnum.tmod WINDOWSIZE = (i.val : Int) ∧
      rd s.buffer ((s.buffer i).seqnum.tmod WINDOWSIZE) = some (s.buffer i) := by
  obtain ⟨hn, hlast, hslots⟩ := A_inv_of_reachableH s h hr
  refine ⟨hn, ?_, ?_⟩
  · intro hacc
    rcases hlast with ⟨h0, -⟩ | ⟨-, h1, h2, h3⟩
    · omega
    · exact ⟨h1, h2, h3⟩
  · intro i hi
    obtain ⟨h0, h1, h2⟩ := hslots i hi
    have ht : (s.buffer i).seqnum.tmod WINDOWSIZE = (i.val : Int) := by
      simp only [WINDOWSIZE]
      rw [tmod_six _ h0]
      exact h2
    refine ⟨⟨h0, h1⟩, h2, ht, ?_⟩
    rw [ht, rd_of_bounds _ _ ⟨by omega, by have := i.isLt; omega⟩]
    congr 2
    apply Fin.ext
    unfold ring
    simp only
    have := i.isLt
    omega

/-- C20, at the state after the submission of message 0 from `A_start`. -/
theorem A_sequence_slots_witness :
    A_reachableH oneSent.1 oneSent.2 ∧ oneSent.2.accepted = 1 ∧ oneSent.2.stored 0 = true ∧
    (0 ≤ oneSent.1.A_nextseqnum ∧ oneSent.1.A_nextseqnum < SEQSPACE) ∧
    (1 ≤ oneSent.2.accepted →
      0 ≤ oneSent.1.windowlast ∧ oneSent.1.windowlast < WINDOWSIZE ∧
      oneSent.1.windowlast = (oneSent.1.A_nextseqnum - 1) % WINDOWSIZE) ∧
    ∀ i : Fin 6, oneSent.2.stored i = true →
      (0 ≤ (oneSent.1.buffer i).seqnum ∧ (oneSent.1.buffer i).seqnum < SEQSPACE) ∧
      (oneSent.1.buffer i).seqnum % WINDOWSIZE = (i.val : Int) ∧
      (oneSent.1.buffer i).seqnum.tmod WINDOWSIZE = (i.val : Int) ∧
      rd oneSent.1.buffer ((oneSent.1.buffer i).seqnum.tmod WINDOWSIZE)
        = some (oneSent.1.buffer i) :=
  have hr : A_reachableH oneSent.1 oneSent.2 :=
    A_reachableH.step A_start History.empty (ACall.output (msgOf 0)) oneSent.1 oneSent.2
      A_reachableH.start rfl
  ⟨hr, by decide, by decide, A_sequence_slots oneSent.1 oneSent.2 hr⟩

end SR
